import Mathlib

/-!
# Verification of the AMPL-2023 compiler front end

A shallow embedding, in Lean 4, of the core data structures and routines of
the AMPL-2023 compiler front end (generic chained hash table, scoped symbol
table, scanner routines, and a fragment of the recursive-descent
parser/translator), together with theorems settling the specification claims
about them.

Machine integers of the C source are modelled as `Nat`/`Int` (the programs
under study only ever hold small non-negative counters and flag words in
them, except where an explicit overflow guard is part of the code, which is
modelled exactly).  The C `float` load factor is modelled as an exact
rational, carried as a numerator/denominator pair of naturals (the only load
factor the compiler uses, `0.75f`, is the exact float `3/4`), and the float
load comparison as the corresponding exact rational comparison.  Heap
pointers that may be `NULL` are modelled as `Option`;
dereferencing a null pointer is modelled as a distinguished `crash` outcome.
-/

namespace Ampl

/-! ## Generic hash table (`hashtable.c`)

The C hash table owns an array of singly linked bucket chains.  A bucket is
modelled as a `List (K × V)` whose head is the head of the chain, and the
bucket array as a `List` of buckets.  The pluggable hash and comparison
functions are fields of the structure, exactly as in the C `struct hashtab`.
-/

/-- `INITIAL_DELTA_INDEX` from `hashtable.c`. -/
def INITIAL_DELTA_INDEX : Nat := 4

/-- The `delta` array from `hashtable.c`: differences between a power of two
and the largest prime less than that power of two. -/
def delta : List Nat :=
  [0, 0, 1, 1, 3, 1, 3, 1, 5, 3, 3, 9, 3, 1, 3, 19,
   15, 1, 5, 1, 3, 9, 3, 15, 3, 39, 5, 39, 57, 3, 35, 1]

/-- `MAX_IDX = sizeof(delta) / sizeof(short)` from `hashtable.c`: the number
of entries of `delta`, namely 32. -/
def MAX_IDX : Nat := 32

/-- Modelled from the spec: `HASH_TABLE_KEY_VALUE_PAIR_EXISTS`, the
distinguished "key already present" result of `ht_insert`, is declared in
`hashtable.h`, which is not part of the sources; the spec describes it as a
duplicate signal distinct from the success (0) and allocation-failure (1)
codes. -/
def HASH_TABLE_KEY_VALUE_PAIR_EXISTS : Int := 2

/-- `EXIT_SUCCESS` of the C standard library. -/
def EXIT_SUCCESS : Int := 0

/-- `EXIT_FAILURE` of the C standard library. -/
def EXIT_FAILURE : Int := 1

/-- The C `struct hashtab`.  `table` is the bucket array, `size` the current
capacity, `num_entries` the entry count, `max_loadfactor` the float load
factor (the C `float` is modelled exactly as a rational, carried as a
numerator/denominator pair of naturals; the load comparison below is the
exact rational comparison written cross-multiplied), `idx` the index into
`delta`, and `hash` and `cmp` the pluggable hash and comparison functions
(the C comparison returns an `int` that is 0 exactly on equal keys). -/
structure HashTab (K V : Type) where
  table : List (List (K × V))
  size : Nat
  num_entries : Nat
  max_loadfactor : Nat × Nat
  idx : Nat
  hash : K → Nat → Nat
  cmp : K → K → Int

variable {K V : Type}

/-- `ht_init` from `hashtable.c`: a fresh table of capacity
`(1 << INITIAL_DELTA_INDEX) - delta[INITIAL_DELTA_INDEX]` = 13, all buckets
empty, zero entries.  (The malloc-failure paths, which return `NULL`, are not
modelled: allocation always succeeds in the model.) -/
def ht_init (loadfactor : Nat × Nat) (hash : K → Nat → Nat) (cmp : K → K → Int) :
    HashTab K V :=
  let size := 2 ^ INITIAL_DELTA_INDEX - delta.getD INITIAL_DELTA_INDEX 0
  { table := List.replicate size []
    size := size
    num_entries := 0
    max_loadfactor := loadfactor
    idx := INITIAL_DELTA_INDEX
    hash := hash
    cmp := cmp }

/-- The chain walk inside `ht_search`: follow `next_ptr` from the bucket
head, returning the value of the first entry whose key compares equal. -/
def chain_search (cmp : K → K → Int) (key : K) : List (K × V) → Option V
  | [] => none
  | e :: rest => if cmp key e.1 = 0 then some e.2 else chain_search cmp key rest

/-- `ht_search` from `hashtable.c`: hash the key to a bucket index and walk
that chain.  (The `NULL`-table/`NULL`-key guard of the C code concerns only
callers that pass null pointers, which the model's types exclude.) -/
def ht_search (ht : HashTab K V) (key : K) : Option V :=
  let k := ht.hash key ht.size
  chain_search ht.cmp key (ht.table.getD k [])

/-- `getsize` from `hashtable.c`, applied to the incremented `idx`:
`(1 << idx) - delta[idx]`. -/
def getsize (idx : Nat) : Nat := 2 ^ idx - delta.getD idx 0

/-- One step of the relinking loop of `rehash`: the entry is prepended to the
bucket of its recomputed index (`p->next_ptr = new_table[k]; new_table[k] = p`). -/
def relinkEntry (hash : K → Nat → Nat) (size' : Nat)
    (acc : List (List (K × V))) (e : K × V) : List (List (K × V)) :=
  acc.set (hash e.1 size') (e :: acc.getD (hash e.1 size') [])

/-- The inner chain walk of `rehash`: relink every entry of one old bucket,
head first. -/
def relinkChain (hash : K → Nat → Nat) (size' : Nat)
    (acc : List (List (K × V))) (chain : List (K × V)) : List (List (K × V)) :=
  chain.foldl (relinkEntry hash size') acc

/-- `rehash` from `hashtable.c`: bump `idx`, compute the next capacity,
allocate a fresh null-initialised bucket array, and relink every entry of
every old bucket (in bucket order, chain order) into it. -/
def rehash (ht : HashTab K V) : HashTab K V :=
  let idx' := ht.idx + 1
  let size' := getsize idx'
  let newTable :=
    ht.table.foldl (relinkChain ht.hash size') (List.replicate size' [])
  { ht with table := newTable, size := size', idx := idx' }

/-- The entry-count increment of `ht_insert` (`ht->num_entries++`). -/
def bumped (ht : HashTab K V) : HashTab K V :=
  { ht with num_entries := ht.num_entries + 1 }

/-- The conditional rehash of `ht_insert`: rehash exactly when
`ht->max_loadfactor < (float)ht->num_entries / ht->size && ht->idx < MAX_IDX`
(evaluated after the entry-count increment; the float comparison
`lf < n / s` is modelled as the exact rational comparison
`lf.1 * s < n * lf.2`). -/
def afterGrow (ht : HashTab K V) : HashTab K V :=
  if ht.max_loadfactor.1 * ht.size < ht.num_entries * ht.max_loadfactor.2 ∧
      ht.idx < MAX_IDX
    then rehash ht else ht

/-- The final step of `ht_insert`: `k = ht->hash(key, ht->size)`, then the
new entry is prepended to bucket `k`
(`p->next_ptr = ht->table[k]; ht->table[k] = p`). -/
def insertEntry (ht : HashTab K V) (key : K) (value : V) : HashTab K V :=
  let k := ht.hash key ht.size
  { ht with table := ht.table.set k ((key, value) :: ht.table.getD k []) }

/-- `ht_insert` from `hashtable.c`: a full lookup first (duplicates are
rejected with `HASH_TABLE_KEY_VALUE_PAIR_EXISTS` and the table untouched);
otherwise the entry count is incremented (`bumped`), a rehash is triggered if
the load factor is now exceeded and `idx < MAX_IDX` (`afterGrow`), and the
new entry is prepended to its bucket computed against the post-rehash
capacity (`insertEntry`).  Returns the C result code together with the
updated table.  (The malloc-failure path returning 1 is not modelled:
allocation always succeeds in the model.) -/
def ht_insert (ht : HashTab K V) (key : K) (value : V) : Int × HashTab K V :=
  if (ht_search ht key).isSome then
    (HASH_TABLE_KEY_VALUE_PAIR_EXISTS, ht)
  else
    (0, insertEntry (afterGrow (bumped ht)) key value)

/-- `ht_free` from `hashtable.c`.  Freeing is modelled observationally: the
result is the C return code, the table left allocated (`some` = still
allocated, unchanged; `none` = released), and the sequence of entries handed
to the destructors (bucket order, chain order).  The destructors themselves
are modelled by their null-ness only (`Option Unit`). -/
def ht_free (ht : Option (HashTab K V)) (freekey freeval : Option Unit) :
    Int × Option (HashTab K V) × List (K × V) :=
  match ht, freekey, freeval with
  | some h, some _, some _ => (EXIT_SUCCESS, none, h.table.flatten)
  | _, _, _ => (EXIT_FAILURE, ht, [])

/-- All entries reachable from the bucket array, in bucket order, chain
order. -/
def entriesList (ht : HashTab K V) : List (K × V) := ht.table.flatten

/-- The keys reachable from the bucket array. -/
def keysList (ht : HashTab K V) : List K := (entriesList ht).map Prod.fst

/-- Well-formedness of a hash table reachable through the C interface: the
bucket array has `size` buckets, `size` is the precomputed capacity for the
current `idx`, the pluggable hash function returns in-range bucket indices,
the pluggable comparison recognises exactly equal keys, every entry sits in
the bucket its key hashes to, and no key occurs twice. -/
structure WF (ht : HashTab K V) : Prop where
  len_eq : ht.table.length = ht.size
  size_eq : ht.size = getsize ht.idx
  hash_lt : ∀ k n, 0 < n → ht.hash k n < n
  cmp_eq : ∀ a b, ht.cmp a b = 0 ↔ a = b
  placed : ∀ i, ∀ e ∈ ht.table.getD i [], ht.hash e.1 ht.size = i
  nodup : (keysList ht).Nodup

lemma delta_length : delta.length = 32 := by decide

lemma delta_getD_lt (i : Nat) : delta.getD i 0 < 2 ^ i := by
  by_cases h : i < 32
  · interval_cases i <;> decide
  · rw [List.getD_eq_default _ _ (by rw [delta_length]; omega)]
    exact Nat.pos_pow_of_pos i (by norm_num)

lemma getsize_pos (i : Nat) : 0 < getsize i :=
  Nat.sub_pos_of_lt (delta_getD_lt i)

lemma getsize_lt (i : Nat) : getsize i < getsize (i + 1) := by
  by_cases h : i < 32
  · interval_cases i <;> decide
  · unfold getsize
    rw [List.getD_eq_default _ _ (by rw [delta_length]; omega),
      List.getD_eq_default _ _ (by rw [delta_length]; omega)]
    have := Nat.pos_pow_of_pos i (show 0 < 2 by norm_num)
    have : (2:Nat) ^ (i+1) = 2 * 2 ^ i := by ring
    omega

lemma WF.size_pos {ht : HashTab K V} (wf : WF ht) : 0 < ht.size := by
  rw [wf.size_eq]; exact getsize_pos _

/-! ### List helper lemmas -/

lemma getD_set_self {α : Type} (l : List α) (j : Nat) (x d : α)
    (h : j < l.length) : (l.set j x).getD j d = x := by
  simp [List.getD, List.getElem?_set_self, h]

lemma getD_set_ne {α : Type} (l : List α) (i j : Nat) (x d : α)
    (h : i ≠ j) : (l.set i x).getD j d = l.getD j d := by
  simp [List.getD, List.getElem?_set_ne h]

/-- Prepending an element to one bucket of a bucket array prepends it to the
flattened entry list, up to permutation. -/
lemma flatten_set_cons {α : Type} (acc : List (List α)) (j : Nat) (x : α)
    (h : j < acc.length) :
    ((acc.set j (x :: acc.getD j [])).flatten).Perm (x :: acc.flatten) := by
  induction acc generalizing j with
  | nil => simp at h
  | cons b rest ih =>
    cases j with
    | zero => simp [List.getD]
    | succ j =>
      have hj : j < rest.length := by simpa using h
      have h1 := (ih j hj).append_left b
      have h2 : ((b :: rest).set (j+1) (x :: (b :: rest).getD (j+1) [])).flatten
          = b ++ (rest.set j (x :: rest.getD j [])).flatten := rfl
      rw [h2, List.flatten_cons]
      exact h1.trans List.perm_middle

/-! ### Relinking lemmas (for `rehash`) -/

lemma relinkEntry_length (hash : K → Nat → Nat) (size' : Nat)
    (acc : List (List (K × V))) (e : K × V) :
    (relinkEntry hash size' acc e).length = acc.length := by
  simp [relinkEntry]

lemma relinkChain_length (hash : K → Nat → Nat) (size' : Nat)
    (chain : List (K × V)) (acc : List (List (K × V))) :
    (relinkChain hash size' acc chain).length = acc.length := by
  induction chain generalizing acc with
  | nil => rfl
  | cons e rest ih =>
    show (relinkChain hash size' (relinkEntry hash size' acc e) rest).length
        = acc.length
    rw [ih, relinkEntry_length]

lemma relinkEntry_placed (hash : K → Nat → Nat) (size' : Nat)
    (acc : List (List (K × V))) (x : K × V)
    (hacc : ∀ i, ∀ e ∈ acc.getD i [], hash e.1 size' = i) :
    ∀ i, ∀ e ∈ (relinkEntry hash size' acc x).getD i [], hash e.1 size' = i := by
  intro i e he
  by_cases hij : i = hash x.1 size'
  · subst hij
    by_cases hlen : hash x.1 size' < acc.length
    · rw [relinkEntry, getD_set_self _ _ _ _ hlen] at he
      rcases List.mem_cons.mp he with rfl | he'
      · rfl
      · exact hacc _ _ he'
    · rw [relinkEntry, List.set_eq_of_length_le (by omega)] at he
      exact hacc _ _ he
  · rw [relinkEntry, getD_set_ne _ _ _ _ _ (fun h => hij h.symm)] at he
    exact hacc _ _ he

lemma relinkChain_placed (hash : K → Nat → Nat) (size' : Nat)
    (chain : List (K × V)) (acc : List (List (K × V)))
    (hacc : ∀ i, ∀ e ∈ acc.getD i [], hash e.1 size' = i) :
    ∀ i, ∀ e ∈ (relinkChain hash size' acc chain).getD i [], hash e.1 size' = i := by
  induction chain generalizing acc with
  | nil => exact hacc
  | cons x rest ih =>
    exact ih (relinkEntry hash size' acc x) (relinkEntry_placed hash size' acc x hacc)

lemma relinkChain_flatten_perm (hash : K → Nat → Nat) (size' : Nat)
    (chain : List (K × V)) (acc : List (List (K × V)))
    (hb : ∀ e ∈ chain, hash e.1 size' < acc.length) :
    ((relinkChain hash size' acc chain).flatten).Perm (chain ++ acc.flatten) := by
  induction chain generalizing acc with
  | nil => simp [relinkChain]
  | cons e rest ih =>
    have hlen : hash e.1 size' < acc.length := hb e (by simp)
    have h1 : ((relinkEntry hash size' acc e).flatten).Perm (e :: acc.flatten) :=
      flatten_set_cons acc _ e hlen
    have hb' : ∀ x ∈ rest, hash x.1 size' < (relinkEntry hash size' acc e).length := by
      intro x hx
      rw [relinkEntry_length]
      exact hb x (by simp [hx])
    have h2 := ih (relinkEntry hash size' acc e) hb'
    show ((relinkChain hash size' (relinkEntry hash size' acc e) rest).flatten).Perm _
    exact h2.trans ((h1.append_left rest).trans List.perm_middle)

/-- The nested loops of `rehash` (over buckets, then over each chain) relink
exactly the entries of the flattened table, in order. -/
lemma foldl_relinkChain_eq (hash : K → Nat → Nat) (size' : Nat)
    (L : List (List (K × V))) (acc : List (List (K × V))) :
    L.foldl (relinkChain hash size') acc = relinkChain hash size' acc L.flatten := by
  rw [relinkChain, List.foldl_flatten]
  rfl

lemma getD_replicate_nil (n i : Nat) :
    (List.replicate n ([] : List (K × V))).getD i [] = [] := by
  by_cases h : i < n
  · rw [List.getD_eq_getElem _ _ (by simpa using h)]
    exact List.getElem_replicate ..
  · exact List.getD_eq_default _ _ (by simpa using Nat.le_of_not_lt h)

lemma rehash_table_length (ht : HashTab K V) :
    (rehash ht).table.length = getsize (ht.idx + 1) := by
  show (ht.table.foldl (relinkChain ht.hash (getsize (ht.idx + 1)))
      (List.replicate (getsize (ht.idx + 1)) [])).length = _
  rw [foldl_relinkChain_eq, relinkChain_length, List.length_replicate]

lemma rehash_entries_perm {ht : HashTab K V} (wf : WF ht) :
    (entriesList (rehash ht)).Perm (entriesList ht) := by
  show ((ht.table.foldl (relinkChain ht.hash (getsize (ht.idx + 1)))
      (List.replicate (getsize (ht.idx + 1)) [])).flatten).Perm ht.table.flatten
  rw [foldl_relinkChain_eq]
  have hb : ∀ e ∈ ht.table.flatten, ht.hash e.1 (getsize (ht.idx + 1)) <
      (List.replicate (getsize (ht.idx + 1)) ([] : List (K × V))).length := by
    intro e _
    rw [List.length_replicate]
    exact wf.hash_lt _ _ (getsize_pos _)
  have := relinkChain_flatten_perm ht.hash (getsize (ht.idx + 1)) ht.table.flatten
    (List.replicate (getsize (ht.idx + 1)) []) hb
  simpa using this

lemma WF_rehash {ht : HashTab K V} (wf : WF ht) : WF (Ampl.rehash ht) := by
  refine ⟨?_, ?_, wf.hash_lt, wf.cmp_eq, ?_, ?_⟩
  · exact rehash_table_length ht
  · rfl
  · show ∀ i, ∀ e ∈ (ht.table.foldl (relinkChain ht.hash (getsize (ht.idx + 1)))
        (List.replicate (getsize (ht.idx + 1)) [])).getD i [],
        ht.hash e.1 (Ampl.rehash ht).size = i
    rw [foldl_relinkChain_eq]
    exact relinkChain_placed ht.hash (getsize (ht.idx + 1)) ht.table.flatten _
      (by intro i e he; rw [getD_replicate_nil] at he; cases he)
  · have hperm := (rehash_entries_perm wf).map Prod.fst
    exact wf.nodup.perm hperm.symm

/-! ### Characterisation of `ht_search` on well-formed tables -/

lemma chain_search_of_mem {cmp : K → K → Int} (hc : ∀ a b, cmp a b = 0 ↔ a = b)
    {chain : List (K × V)} {key : K} {v : V}
    (hnd : (chain.map Prod.fst).Nodup) (hmem : (key, v) ∈ chain) :
    chain_search cmp key chain = some v := by
  induction chain with
  | nil => cases hmem
  | cons e rest ih =>
    rw [List.map_cons] at hnd
    obtain ⟨hnotin, hnd'⟩ := List.nodup_cons.mp hnd
    rcases List.mem_cons.mp hmem with heq | hmem'
    · rw [← heq]
      simp [chain_search, (hc key key).mpr rfl]
    · have hne : ¬ cmp key e.1 = 0 := by
        intro h0
        apply hnotin
        rw [← (hc _ _).mp h0]
        exact List.mem_map_of_mem Prod.fst hmem'
      rw [show chain_search cmp key (e :: rest)
          = if cmp key e.1 = 0 then some e.2 else chain_search cmp key rest from rfl,
        if_neg hne]
      exact ih hnd' hmem'

lemma chain_search_some {cmp : K → K → Int} (hc : ∀ a b, cmp a b = 0 ↔ a = b)
    {chain : List (K × V)} {key : K} {v : V}
    (h : chain_search cmp key chain = some v) : (key, v) ∈ chain := by
  induction chain with
  | nil => cases h
  | cons e rest ih =>
    rw [show chain_search cmp key (e :: rest)
        = if cmp key e.1 = 0 then some e.2 else chain_search cmp key rest from rfl] at h
    by_cases h0 : cmp key e.1 = 0
    · rw [if_pos h0] at h
      have hk : key = e.1 := (hc _ _).mp h0
      have hv : e.2 = v := by injection h
      exact List.mem_cons.mpr (Or.inl (by cases e; simp_all))
    · rw [if_neg h0] at h
      exact List.mem_cons.mpr (Or.inr (ih h))

lemma chain_search_none_iff {cmp : K → K → Int} (hc : ∀ a b, cmp a b = 0 ↔ a = b)
    {chain : List (K × V)} {key : K} :
    chain_search cmp key chain = none ↔ key ∉ chain.map Prod.fst := by
  induction chain with
  | nil => simp [chain_search]
  | cons e rest ih =>
    rw [show chain_search cmp key (e :: rest)
        = if cmp key e.1 = 0 then some e.2 else chain_search cmp key rest from rfl]
    by_cases h0 : cmp key e.1 = 0
    · rw [if_pos h0]
      constructor
      · intro h; cases h
      · intro hnot
        exact ((hnot (by rw [(hc _ _).mp h0]; simp)).elim)
    · rw [if_neg h0, ih]
      have hne : key ≠ e.1 := fun he => h0 ((hc _ _).mpr he)
      simp [hne]

lemma ht_search_some_iff {ht : HashTab K V} (wf : WF ht) {key : K} {v : V} :
    ht_search ht key = some v ↔ (key, v) ∈ entriesList ht := by
  have hlt : ht.hash key ht.size < ht.table.length := by
    rw [wf.len_eq]; exact wf.hash_lt key _ wf.size_pos
  constructor
  · intro h
    have hmem := chain_search_some wf.cmp_eq h
    have hbucket : ht.table.getD (ht.hash key ht.size) [] ∈ ht.table := by
      rw [List.getD_eq_getElem _ _ hlt]
      exact List.getElem_mem _
    exact List.mem_flatten.mpr ⟨_, hbucket, hmem⟩
  · intro h
    obtain ⟨bucket, hbmem, hmem⟩ := List.mem_flatten.mp h
    obtain ⟨i, hilen, hieq⟩ := List.mem_iff_getElem.mp hbmem
    have hgetD : ht.table.getD i [] = bucket := by
      rw [List.getD_eq_getElem _ _ hilen, hieq]
    have hplace : ht.hash key ht.size = i :=
      wf.placed i (key, v) (by rw [hgetD]; exact hmem)
    show chain_search ht.cmp key (ht.table.getD (ht.hash key ht.size) []) = some v
    rw [hplace, hgetD]
    apply chain_search_of_mem wf.cmp_eq ?_ hmem
    have hsub : bucket.Sublist (entriesList ht) := List.sublist_flatten_of_mem hbmem
    exact wf.nodup.sublist (hsub.map Prod.fst)

lemma ht_search_none_iff {ht : HashTab K V} (wf : WF ht) {key : K} :
    ht_search ht key = none ↔ key ∉ keysList ht := by
  constructor
  · intro h hkey
    obtain ⟨⟨k, v⟩, hmem, heq⟩ := List.mem_map.mp hkey
    dsimp at heq
    subst heq
    have := (ht_search_some_iff wf).mpr hmem
    rw [h] at this
    cases this
  · intro hnot
    cases hs : ht_search ht key with
    | none => rfl
    | some v =>
      exact absurd (List.mem_map_of_mem Prod.fst ((ht_search_some_iff wf).mp hs)) hnot

/-! ### The effect of `ht_insert` on well-formed tables -/

lemma ht_insert_eq_of_present {ht : HashTab K V} {key : K}
    (h : (ht_search ht key).isSome) (value : V) :
    ht_insert ht key value = (HASH_TABLE_KEY_VALUE_PAIR_EXISTS, ht) := by
  rw [ht_insert, if_pos h]

lemma ht_insert_eq_of_absent {ht : HashTab K V} {key : K}
    (h : ht_search ht key = none) (value : V) :
    ht_insert ht key value = (0, insertEntry (afterGrow (bumped ht)) key value) := by
  rw [ht_insert, if_neg (by simp [h])]

lemma WF_bumped {ht : HashTab K V} (wf : WF ht) : WF (bumped ht) :=
  ⟨wf.len_eq, wf.size_eq, wf.hash_lt, wf.cmp_eq, wf.placed, wf.nodup⟩

lemma WF_afterGrow {ht : HashTab K V} (wf : WF ht) : WF (afterGrow ht) := by
  unfold afterGrow
  split
  · exact WF_rehash wf
  · exact wf

lemma afterGrow_entries_perm {ht : HashTab K V} (wf : WF ht) :
    (entriesList (afterGrow ht)).Perm (entriesList ht) := by
  unfold afterGrow
  split
  · exact rehash_entries_perm wf
  · exact List.Perm.refl _

lemma afterGrow_size_le {ht : HashTab K V} (wf : WF ht) :
    ht.size ≤ (afterGrow ht).size := by
  unfold afterGrow
  split
  · show ht.size ≤ getsize (ht.idx + 1)
    rw [wf.size_eq]
    exact Nat.le_of_lt (getsize_lt _)
  · exact Nat.le_refl _

lemma afterGrow_size_lt {ht : HashTab K V} (wf : WF ht)
    (hcond : ht.max_loadfactor.1 * ht.size < ht.num_entries * ht.max_loadfactor.2 ∧
      ht.idx < MAX_IDX) :
    ht.size < (afterGrow ht).size := by
  unfold afterGrow
  rw [if_pos hcond]
  show ht.size < getsize (ht.idx + 1)
  rw [wf.size_eq]
  exact getsize_lt _

lemma insertEntry_entries_perm {ht : HashTab K V} (wf : WF ht) (key : K) (value : V) :
    (entriesList (insertEntry ht key value)).Perm ((key, value) :: entriesList ht) := by
  unfold insertEntry entriesList
  exact flatten_set_cons ht.table _ (key, value)
    (by rw [wf.len_eq]; exact wf.hash_lt key _ wf.size_pos)

lemma insertEntry_table (ht : HashTab K V) (key : K) (value : V) :
    (insertEntry ht key value).table = ht.table.set (ht.hash key ht.size)
      ((key, value) :: ht.table.getD (ht.hash key ht.size) []) := rfl

lemma WF_insertEntry {ht : HashTab K V} (wf : WF ht) {key : K} (value : V)
    (hfresh : key ∉ keysList ht) : WF (insertEntry ht key value) := by
  have hlt : ht.hash key ht.size < ht.table.length := by
    rw [wf.len_eq]; exact wf.hash_lt key _ wf.size_pos
  refine ⟨?_, wf.size_eq, wf.hash_lt, wf.cmp_eq, ?_, ?_⟩
  · show (insertEntry ht key value).table.length = ht.size
    rw [insertEntry_table, List.length_set, wf.len_eq]
  · intro i e he
    show ht.hash e.1 ht.size = i
    by_cases hij : i = ht.hash key ht.size
    · subst hij
      rw [insertEntry_table, getD_set_self _ _ _ _ hlt] at he
      rcases List.mem_cons.mp he with rfl | he'
      · rfl
      · exact wf.placed _ _ he'
    · rw [insertEntry_table, getD_set_ne _ _ _ _ _ (fun h => hij h.symm)] at he
      exact wf.placed _ _ he
  · have hperm := (insertEntry_entries_perm wf key value).map Prod.fst
    refine (List.Nodup.perm ?_ hperm.symm)
    rw [List.map_cons]
    exact List.nodup_cons.mpr ⟨hfresh, wf.nodup⟩

/-- `ht_insert` preserves well-formedness. -/
lemma WF_insert {ht : HashTab K V} (wf : WF ht) (key : K) (value : V) :
    WF (ht_insert ht key value).2 := by
  cases hs : ht_search ht key with
  | some v =>
    rw [ht_insert_eq_of_present (by rw [hs]; rfl) value]
    exact wf
  | none =>
    rw [ht_insert_eq_of_absent hs value]
    have hfresh : key ∉ keysList ht := (ht_search_none_iff wf).mp hs
    have wf2 : WF (afterGrow (bumped ht)) := WF_afterGrow (WF_bumped wf)
    refine WF_insertEntry wf2 value ?_
    intro hkey
    apply hfresh
    have hperm : (keysList (afterGrow (bumped ht))).Perm (keysList ht) :=
      (afterGrow_entries_perm (WF_bumped wf)).map Prod.fst
    exact hperm.mem_iff.mp hkey

lemma entries_insert_absent {ht : HashTab K V} (wf : WF ht) {key : K}
    (hs : ht_search ht key = none) (value : V) :
    (entriesList (ht_insert ht key value).2).Perm ((key, value) :: entriesList ht) := by
  rw [ht_insert_eq_of_absent hs value]
  refine (insertEntry_entries_perm (WF_afterGrow (WF_bumped wf)) key value).trans ?_
  exact (afterGrow_entries_perm (WF_bumped wf)).cons (key, value)

lemma ht_insert_size_le {ht : HashTab K V} (wf : WF ht) (key : K) (value : V) :
    ht.size ≤ (ht_insert ht key value).2.size := by
  cases hs : ht_search ht key with
  | some v =>
    rw [ht_insert_eq_of_present (by rw [hs]; rfl) value]
  | none =>
    rw [ht_insert_eq_of_absent hs value]
    show ht.size ≤ (afterGrow (bumped ht)).size
    exact afterGrow_size_le (WF_bumped wf)

lemma ht_insert_size_lt {ht : HashTab K V} (wf : WF ht) {key : K} (value : V)
    (hs : ht_search ht key = none)
    (hcond : ht.max_loadfactor.1 * ht.size < (ht.num_entries + 1) * ht.max_loadfactor.2 ∧
      ht.idx < MAX_IDX) :
    ht.size < (ht_insert ht key value).2.size := by
  rw [ht_insert_eq_of_absent hs value]
  show ht.size < (afterGrow (bumped ht)).size
  exact afterGrow_size_lt (WF_bumped wf) hcond

/-- Searching the inserted key after a successful `ht_insert` yields the
inserted value. -/
lemma ht_search_insert_self {ht : HashTab K V} (wf : WF ht) {key : K}
    (hs : ht_search ht key = none) (value : V) :
    ht_search (ht_insert ht key value).2 key = some value := by
  have wf' := WF_insert wf key value
  rw [ht_search_some_iff wf']
  exact ((entries_insert_absent wf hs value).mem_iff).mpr (List.mem_cons_self _ _)

/-- `ht_insert` never disturbs the value found for any already-present key. -/
lemma ht_search_insert_preserve {ht : HashTab K V} (wf : WF ht) {k' key : K}
    {w : V} (hk' : ht_search ht k' = some w) (value : V) :
    ht_search (ht_insert ht key value).2 k' = some w := by
  cases hs : ht_search ht key with
  | some v =>
    rw [ht_insert_eq_of_present (by rw [hs]; rfl) value]
    exact hk'
  | none =>
    have wf' := WF_insert wf key value
    rw [ht_search_some_iff wf']
    refine ((entries_insert_absent wf hs value).mem_iff).mpr ?_
    exact List.mem_cons.mpr (Or.inr ((ht_search_some_iff wf).mp hk'))

/-- A freshly initialised table is well-formed, provided the supplied hash
function returns in-range indices and the supplied comparison recognises
exactly equal keys. -/
lemma WF_init (loadfactor : Nat × Nat) {hash : K → Nat → Nat} {cmp : K → K → Int}
    (hh : ∀ k n, 0 < n → hash k n < n) (hc : ∀ a b, cmp a b = 0 ↔ a = b) :
    WF (ht_init (V := V) loadfactor hash cmp) := by
  refine ⟨?_, rfl, hh, hc, ?_, ?_⟩
  · exact List.length_replicate ..
  · intro i e he
    have he' : e ∈ (List.replicate (2 ^ INITIAL_DELTA_INDEX -
        delta.getD INITIAL_DELTA_INDEX 0) ([] : List (K × V))).getD i [] := he
    rw [getD_replicate_nil] at he'
    cases he'
  · show ((List.replicate _ ([] : List (K × V))).flatten.map Prod.fst).Nodup
    simp

lemma ht_search_init (loadfactor : Nat × Nat) (hash : K → Nat → Nat) (cmp : K → K → Int)
    (key : K) : ht_search (ht_init (V := V) loadfactor hash cmp) key = none := by
  show chain_search cmp key ((List.replicate _ []).getD _ []) = none
  rw [getD_replicate_nil]
  rfl

lemma keysList_init (loadfactor : Nat × Nat) (hash : K → Nat → Nat) (cmp : K → K → Int) :
    keysList (ht_init (V := V) loadfactor hash cmp) = [] := by
  show ((List.replicate _ ([] : List (K × V))).flatten.map Prod.fst) = []
  simp

/-! ### Sequences of inserts -/

/-- A sequence of `ht_insert` calls, keeping the evolving table (as the
compiler's symbol table does with its tables). -/
def insertList (ht : HashTab K V) (kvs : List (K × V)) : HashTab K V :=
  kvs.foldl (fun h p => (ht_insert h p.1 p.2).2) ht

lemma insertList_append (ht : HashTab K V) (a b : List (K × V)) :
    insertList ht (a ++ b) = insertList (insertList ht a) b :=
  List.foldl_append ..

lemma WF_insertList {ht : HashTab K V} (wf : WF ht) (kvs : List (K × V)) :
    WF (insertList ht kvs) := by
  induction kvs generalizing ht with
  | nil => exact wf
  | cons p rest ih => exact ih (WF_insert wf p.1 p.2)

lemma insertList_size_le {ht : HashTab K V} (wf : WF ht) (kvs : List (K × V)) :
    ht.size ≤ (insertList ht kvs).size := by
  induction kvs generalizing ht with
  | nil => exact Nat.le_refl _
  | cons p rest ih =>
    exact Nat.le_trans (ht_insert_size_le wf p.1 p.2) (ih (WF_insert wf p.1 p.2))

lemma insertList_entries_perm {ht : HashTab K V} (wf : WF ht) {kvs : List (K × V)}
    (hnd : (kvs.map Prod.fst).Nodup)
    (hfresh : ∀ k ∈ kvs.map Prod.fst, k ∉ keysList ht) :
    (entriesList (insertList ht kvs)).Perm (kvs ++ entriesList ht) := by
  induction kvs generalizing ht with
  | nil => exact List.Perm.refl _
  | cons p rest ih =>
    rw [List.map_cons] at hnd
    obtain ⟨hphead, hnd'⟩ := List.nodup_cons.mp hnd
    have hs : ht_search ht p.1 = none :=
      (ht_search_none_iff wf).mpr (hfresh p.1 (by simp))
    have hkeys : (keysList ((ht_insert ht p.1 p.2).2)).Perm (p.1 :: keysList ht) :=
      (entries_insert_absent wf hs p.2).map Prod.fst
    have hfresh' : ∀ k ∈ rest.map Prod.fst,
        k ∉ keysList ((ht_insert ht p.1 p.2).2) := by
      intro k hk hkmem
      rcases List.mem_cons.mp (hkeys.mem_iff.mp hkmem) with rfl | hkm
      · exact hphead hk
      · exact hfresh k (by simp [hk]) hkm
    have hstep := ih (WF_insert wf p.1 p.2) hnd' hfresh'
    refine hstep.trans ?_
    have h2 : ((p.1, p.2) :: entriesList ht).Perm (entriesList (ht_insert ht p.1 p.2).2) :=
      (entries_insert_absent wf hs p.2).symm
    refine (h2.symm.append_left rest).trans ?_
    exact List.perm_middle

lemma insertList_search {ht : HashTab K V} (wf : WF ht) {kvs : List (K × V)}
    (hnd : (kvs.map Prod.fst).Nodup)
    (hfresh : ∀ k ∈ kvs.map Prod.fst, k ∉ keysList ht) :
    ∀ p ∈ kvs, ht_search (insertList ht kvs) p.1 = some p.2 := by
  intro p hp
  have wf' := WF_insertList wf kvs
  rw [show ht_search (insertList ht kvs) p.1 = some p.2
      ↔ (p.1, p.2) ∈ entriesList (insertList ht kvs) from ht_search_some_iff wf']
  refine ((insertList_entries_perm wf hnd hfresh).mem_iff).mpr ?_
  exact List.mem_append.mpr (Or.inl (by simpa using hp))

lemma insertList_take_succ (ht : HashTab K V) (kvs : List (K × V)) (n : Nat)
    (hn : n < kvs.length) :
    insertList ht (kvs.take (n + 1))
      = (ht_insert (insertList ht (kvs.take n)) kvs[n].1 kvs[n].2).2 := by
  rw [List.take_succ, List.getElem?_eq_getElem hn]
  rw [insertList_append]
  rfl

lemma nodup_getElem_not_mem_take {α : Type} (l : List α) (hnd : l.Nodup) (n : Nat)
    (hn : n < l.length) : l[n] ∉ l.take n := by
  have hsplit : l = l.take n ++ l.drop n := (List.take_append_drop n l).symm
  have hnd2 : (l.take n ++ l.drop n).Nodup := by rw [← hsplit]; exact hnd
  obtain ⟨-, -, hdisj⟩ := List.nodup_append.mp hnd2
  intro hmem
  refine hdisj hmem ?_
  rw [List.drop_eq_getElem_cons hn]
  exact List.mem_cons_self _ _

/-- The key inserted at step `n` of a duplicate-free insert sequence is not
yet present when its turn comes. -/
lemma insertList_step_fresh {ht : HashTab K V} (wf : WF ht) {kvs : List (K × V)}
    (hnd : (kvs.map Prod.fst).Nodup)
    (hfresh : ∀ k ∈ kvs.map Prod.fst, k ∉ keysList ht)
    (n : Nat) (hn : n < kvs.length) :
    ht_search (insertList ht (kvs.take n)) kvs[n].1 = none := by
  have hndtake : ((kvs.take n).map Prod.fst).Nodup := by
    rw [List.map_take]
    exact hnd.sublist (List.take_sublist _ _)
  have hfreshtake : ∀ k ∈ (kvs.take n).map Prod.fst, k ∉ keysList ht := by
    intro k hk
    rw [List.map_take] at hk
    exact hfresh k (List.mem_of_mem_take hk)
  have wf' := WF_insertList wf (kvs.take n)
  have hn' : n < (kvs.map Prod.fst).length := by simpa using hn
  rw [ht_search_none_iff wf']
  intro hmem
  have hperm := (insertList_entries_perm wf hndtake hfreshtake).map Prod.fst
  rw [List.map_append] at hperm
  rcases List.mem_append.mp (hperm.mem_iff.mp hmem) with hL | hR
  · have hL' : (kvs.map Prod.fst)[n] ∈ (kvs.map Prod.fst).take n := by
      rw [← List.map_take]
      have hg : (kvs.map Prod.fst)[n] = kvs[n].1 := by simp
      rw [hg]
      exact hL
    exact nodup_getElem_not_mem_take _ hnd n hn' hL'
  · refine hfresh kvs[n].1 ?_ hR
    have hg : kvs[n].1 = (kvs.map Prod.fst)[n] := by simp
    rw [hg]
    exact List.getElem_mem _

/-! ### Concrete hash/compare functions used to instantiate witnesses -/

/-- A trivially in-range hash function on naturals (for witnesses). -/
def zeroHash : Nat → Nat → Nat := fun _ _ => 0

lemma zeroHash_lt : ∀ (k n : Nat), 0 < n → zeroHash k n < n := fun _ _ h => h

/-- A modular hash function on naturals (for witnesses). -/
def modHash : Nat → Nat → Nat := fun k n => k % n

lemma modHash_lt : ∀ (k n : Nat), 0 < n → modHash k n < n :=
  fun k _ h => Nat.mod_lt k h

/-- A C-style comparison on naturals: 0 exactly on equal keys. -/
def natCmp : Nat → Nat → Int := fun a b => if a = b then 0 else 1

lemma natCmp_eq : ∀ a b : Nat, natCmp a b = 0 ↔ a = b := by
  intro a b
  unfold natCmp
  split
  · simp_all
  · simp_all

end Ampl

namespace Ampl

variable {K V : Type}

/-- C3: for every hash table and every key already present in it,
`ht_insert` returns the key-already-present signal and leaves the table
(entry count and contents) entirely unchanged; consequently every table
reachable from `ht_init` by any sequence of `ht_insert` calls contains no
two entries with equal keys. -/
theorem ht_insert_duplicate_rejected_and_no_dup_keys {K V : Type} :
    (∀ (ht : HashTab K V) (key : K) (v value : V),
      ht_search ht key = some v →
      ht_insert ht key value = (HASH_TABLE_KEY_VALUE_PAIR_EXISTS, ht))
    ∧ (∀ (loadfactor : Nat × Nat) (hash : K → Nat → Nat) (cmp : K → K → Int),
      (∀ k n, 0 < n → hash k n < n) →
      (∀ a b, cmp a b = 0 ↔ a = b) →
      ∀ kvs : List (K × V),
        (keysList (insertList (ht_init loadfactor hash cmp) kvs)).Nodup) := by
  constructor
  · intro ht key v value h
    exact ht_insert_eq_of_present (by rw [h]; rfl) value
  · intro lf hash cmp hh hc kvs
    exact (WF_insertList (WF_init lf hh hc) kvs).nodup

/-- A concrete one-entry table (for the C3 witness). -/
def witC3tab : HashTab Nat Nat := insertList (ht_init (3, 4) zeroHash natCmp) [(1, 10)]

/-- Witness for C3 at concrete inputs: re-inserting key 1 (present with
value 10) is rejected and leaves the table unchanged, and a concrete insert
sequence with a repeated key yields a duplicate-free table. -/
theorem ht_insert_duplicate_rejected_witness :
    ht_insert witC3tab 1 20 = (HASH_TABLE_KEY_VALUE_PAIR_EXISTS, witC3tab)
    ∧ (keysList (insertList (ht_init (3, 4) zeroHash natCmp)
        [(1, 2), (1, 3), (2, 4)])).Nodup := by
  have h := ht_insert_duplicate_rejected_and_no_dup_keys (K := Nat) (V := Nat)
  exact ⟨h.1 witC3tab 1 10 20 (by decide),
    h.2 (3, 4) zeroHash natCmp zeroHash_lt natCmp_eq _⟩

/-- C4: along any duplicate-free insert sequence from `ht_init`
(instantiated with a well-behaved hash and comparison), (i) every insert
returns the success code, (ii) every inserted key is afterwards found by
`ht_search` with its original value (in particular across every rehash the
sequence triggered), (iii) the capacity never shrinks at any point of the
table's lifetime, and (iv) whenever an insert drives the entry count past
the load-factor threshold (with `idx < MAX_IDX`), the capacity strictly
increases at that step. -/
theorem ht_growth_and_rehash_preservation
    (loadfactor : Nat × Nat) (hash : K → Nat → Nat) (cmp : K → K → Int)
    (hh : ∀ k n, 0 < n → hash k n < n)
    (hc : ∀ a b, cmp a b = 0 ↔ a = b)
    (kvs : List (K × V)) (hnd : (kvs.map Prod.fst).Nodup) :
    (∀ n (hn : n < kvs.length),
      (ht_insert (insertList (ht_init loadfactor hash cmp) (kvs.take n))
        kvs[n].1 kvs[n].2).1 = 0)
    ∧ (∀ p ∈ kvs,
      ht_search (insertList (ht_init loadfactor hash cmp) kvs) p.1 = some p.2)
    ∧ (∀ m n : Nat, m ≤ n →
      (insertList (ht_init loadfactor hash cmp) (kvs.take m)).size ≤
        (insertList (ht_init loadfactor hash cmp) (kvs.take n)).size)
    ∧ (∀ n (hn : n < kvs.length),
      ((insertList (ht_init loadfactor hash cmp) (kvs.take n)).max_loadfactor.1 *
          (insertList (ht_init loadfactor hash cmp) (kvs.take n)).size <
          ((insertList (ht_init loadfactor hash cmp) (kvs.take n)).num_entries + 1) *
          (insertList (ht_init loadfactor hash cmp) (kvs.take n)).max_loadfactor.2 ∧
        (insertList (ht_init loadfactor hash cmp) (kvs.take n)).idx < MAX_IDX) →
      (insertList (ht_init loadfactor hash cmp) (kvs.take n)).size <
        (insertList (ht_init loadfactor hash cmp) (kvs.take (n + 1))).size) := by
  have wf0 : WF (ht_init (V := V) loadfactor hash cmp) := WF_init loadfactor hh hc
  have hfresh0 : ∀ k ∈ kvs.map Prod.fst,
      k ∉ keysList (ht_init (V := V) loadfactor hash cmp) := by
    intro k _
    rw [keysList_init]
    exact List.not_mem_nil k
  refine ⟨?_, ?_, ?_, ?_⟩
  · intro n hn
    rw [ht_insert_eq_of_absent (insertList_step_fresh wf0 hnd hfresh0 n hn) kvs[n].2]
  · exact insertList_search wf0 hnd hfresh0
  · intro m n hmn
    have hdecomp : kvs.take n = kvs.take m ++ (kvs.take n).drop m := by
      conv_lhs => rw [← List.take_append_drop m (kvs.take n)]
      rw [List.take_take, Nat.min_eq_left hmn]
    rw [hdecomp, insertList_append]
    exact insertList_size_le (WF_insertList wf0 _) _
  · intro n hn hcond
    rw [insertList_take_succ _ _ n hn]
    exact ht_insert_size_lt (WF_insertList wf0 _) kvs[n].2
      (insertList_step_fresh wf0 hnd hfresh0 n hn) hcond

/-- The concrete insert sequence of the C4 witness: twelve distinct keys,
enough to drive a 13-bucket table past the 0.75 load factor. -/
def witC4kvs : List (Nat × Nat) :=
  [(0, 100), (1, 101), (2, 102), (3, 103), (4, 104), (5, 105),
   (6, 106), (7, 107), (8, 108), (9, 109), (10, 110), (11, 111)]

/-- Witness for C4 at concrete inputs. -/
theorem ht_growth_and_rehash_preservation_witness :
    ((witC4kvs.map Prod.fst).Nodup)
    ∧ ((∀ n (hn : n < witC4kvs.length),
      (ht_insert (insertList (ht_init (3, 4) modHash natCmp) (witC4kvs.take n))
        witC4kvs[n].1 witC4kvs[n].2).1 = 0)
    ∧ (∀ p ∈ witC4kvs,
      ht_search (insertList (ht_init (3, 4) modHash natCmp) witC4kvs) p.1 = some p.2)
    ∧ (∀ m n : Nat, m ≤ n →
      (insertList (ht_init (3, 4) modHash natCmp) (witC4kvs.take m)).size ≤
        (insertList (ht_init (3, 4) modHash natCmp) (witC4kvs.take n)).size)
    ∧ (∀ n (hn : n < witC4kvs.length),
      ((insertList (ht_init (3, 4) modHash natCmp) (witC4kvs.take n)).max_loadfactor.1 *
          (insertList (ht_init (3, 4) modHash natCmp) (witC4kvs.take n)).size <
          ((insertList (ht_init (3, 4) modHash natCmp) (witC4kvs.take n)).num_entries + 1) *
          (insertList (ht_init (3, 4) modHash natCmp) (witC4kvs.take n)).max_loadfactor.2 ∧
        (insertList (ht_init (3, 4) modHash natCmp) (witC4kvs.take n)).idx < MAX_IDX) →
      (insertList (ht_init (3, 4) modHash natCmp) (witC4kvs.take n)).size <
        (insertList (ht_init (3, 4) modHash natCmp) (witC4kvs.take (n + 1))).size)) :=
  ⟨by decide,
    ht_growth_and_rehash_preservation (3, 4) modHash natCmp modHash_lt natCmp_eq
      witC4kvs (by decide)⟩

end Ampl

namespace Ampl

/-- C10: calling `ht_free` with a NULL key-destructor or a NULL
value-destructor returns `EXIT_FAILURE` immediately and releases nothing:
the table is left allocated with its contents unchanged and no entry is
passed to a destructor. -/
theorem ht_free_null_destructor_noop {K V : Type}
    (ht : Option (HashTab K V)) (freekey freeval : Option Unit)
    (h : freekey = none ∨ freeval = none) :
    ht_free ht freekey freeval = (EXIT_FAILURE, ht, []) := by
  rcases h with rfl | rfl
  · cases ht <;> cases freeval <;> rfl
  · cases ht <;> cases freekey <;> rfl

/-- Witness for C10 at a concrete input: freeing a fresh table with a NULL
key-destructor fails and releases nothing. -/
theorem ht_free_null_destructor_noop_witness :
    ht_free (some (ht_init (V := Nat) (3, 4) zeroHash natCmp)) none (some ())
      = (EXIT_FAILURE, some (ht_init (3, 4) zeroHash natCmp), []) :=
  ht_free_null_destructor_noop _ _ _ (Or.inl rfl)

end Ampl

namespace Ampl

/-! ## Value types (`valtypes.h`)

`valtypes.h` in the sources is distributed as a skeleton: the flag-test and
flag-set macro bodies are blank.  They are modelled from the spec, which
states that a `ValType` is a small bit-flag word over
`{ARRAY, BOOLEAN, INTEGER, CALLABLE}`, that array-ness is a flag OR'd onto
the base type, and that the offset counter is advanced exactly for
non-callable (variable) entries.
-/

/-- `ValType` from `valtypes.h`: a bit-flag word. -/
abbrev ValType := Nat

def TYPE_NONE : ValType := 0

def TYPE_ARRAY : ValType := 1

def TYPE_BOOLEAN : ValType := 2

def TYPE_INTEGER : ValType := 4

def TYPE_CALLABLE : ValType := 8

/-- Modelled from the spec: the `IS_CALLABLE_TYPE` macro body is blank in the
distributed `valtypes.h`; per the spec a callable is a flag word with the
`CALLABLE` bit set. -/
def IS_CALLABLE_TYPE (t : ValType) : Bool := t &&& TYPE_CALLABLE != 0

/-- Modelled from the spec: the `IS_ARRAY_TYPE` macro body is blank in the
distributed `valtypes.h`; per the spec array-ness is the `ARRAY` flag on the
type word. -/
def IS_ARRAY_TYPE (t : ValType) : Bool := t &&& TYPE_ARRAY != 0

/-- Modelled from the spec: the `IS_BOOLEAN_TYPE` macro body is blank in the
distributed `valtypes.h`. -/
def IS_BOOLEAN_TYPE (t : ValType) : Bool := t &&& TYPE_BOOLEAN != 0

/-- Modelled from the spec: the `IS_INTEGER_TYPE` macro body is blank in the
distributed `valtypes.h`. -/
def IS_INTEGER_TYPE (t : ValType) : Bool := t &&& TYPE_INTEGER != 0

/-- Modelled from the spec: the `IS_VARIABLE` macro body is blank in the
distributed `valtypes.h`; per the spec the offset counter is advanced only
for non-callable (variable) entries, so a variable is a non-callable type
word. -/
def IS_VARIABLE (t : ValType) : Bool := ! IS_CALLABLE_TYPE t

/-- Modelled from the spec: the `SET_BASE_TYPE` macro body is blank in the
distributed `valtypes.h`; per the spec array-ness is a flag on the base
type, so taking the base type clears the `ARRAY` flag (compare the given
`SET_RETURN_TYPE`, which clears the `CALLABLE` flag). -/
def SET_BASE_TYPE (t : ValType) : ValType := t - (t &&& TYPE_ARRAY)

/-! ## Scoped symbol table (`symboltable.c`)

The symbol table keeps two `static` variables of `symboltable.c`: the active
`table`, the `saved_table` (NULL when no subroutine scope has been opened),
and the `curr_offset` counter; they are modelled as one state record.

The concrete `shift_hash` of `symboltable.c` relies on signed-overflow and
signed-shift behaviour that the C standard leaves undefined, and none of the
claims under verification depend on the bucket distribution; the model
therefore abstracts the hash function as a parameter.  `key_strcmp` wraps the
C `strcmp`, which is modelled by its contract (0 exactly on equal strings,
signed according to order otherwise).
-/

/-- C `strcmp` on the two key strings, modelled by its contract: 0 exactly
on equal strings and nonzero otherwise.  (The sign of the nonzero result
orders the strings in C; the compiler only ever tests the result against 0,
so the model fixes the nonzero value.) -/
def strcmp (a b : String) : Int := if a = b then 0 else 1

/-- `key_strcmp` from `symboltable.c`: casts the opaque keys and delegates to
`strcmp`. -/
def key_strcmp (a b : String) : Int := strcmp a b

lemma key_strcmp_eq : ∀ a b, key_strcmp a b = 0 ↔ a = b := by
  intro a b
  unfold key_strcmp strcmp
  split <;> simp_all

/-- `IDPropt` from `symboltable.h` (as used by `symboltable.c` and
`amplc.c`): the symbol's type word, its storage offset, and its parameter
list (count and types) when callable. -/
structure IDPropt where
  type : ValType
  offset : Nat
  nparams : Nat
  params : List ValType
deriving DecidableEq

/-- The `static` state of `symboltable.c`: the active `table`, the
`saved_table`, and `curr_offset`. -/
structure SymTabState where
  table : HashTab String IDPropt
  saved_table : Option (HashTab String IDPropt)
  curr_offset : Nat

/-- `init_symbol_table` from `symboltable.c`: no saved table, a fresh table
with load factor `0.75f`, offset counter 1. -/
def init_symbol_table (shift_hash : String → Nat → Nat) : SymTabState :=
  { table := ht_init (3, 4) shift_hash key_strcmp
    saved_table := none
    curr_offset := 1 }

/-- `find_name` from `symboltable.c`: search the active table; if that
misses and a saved table exists, search it too, but null out a hit there
unless the found entry is callable. -/
def find_name (st : SymTabState) (id : String) : Option IDPropt :=
  match ht_search st.table id with
  | some q => some q
  | none =>
    match st.saved_table with
    | none => none
    | some sav =>
      match ht_search sav id with
      | none => none
      | some q => if IS_CALLABLE_TYPE q.type then some q else none

/-- `insert_name` from `symboltable.c`: reject if `find_name` resolves the
identifier; otherwise `ht_insert` into the active table, assign
`prop->offset = curr_offset` (the table stores the same `prop` object, so
the stored entry carries the assigned offset — modelled by inserting the
updated record), and advance the counter exactly when the entry is a
variable.  Returns the C result together with the caller-visible `prop` and
the updated state. -/
def insert_name (st : SymTabState) (id : String) (prop : IDPropt) :
    Bool × IDPropt × SymTabState :=
  if (find_name st id).isSome then (false, prop, st)
  else
    let propAssigned := { prop with offset := st.curr_offset }
    let res := ht_insert st.table id propAssigned
    if res.1 ≠ 0 then (false, prop, { st with table := res.2 })
    else
      (true, propAssigned,
        { st with
          table := res.2
          curr_offset := (if IS_VARIABLE propAssigned.type
            then st.curr_offset + 1 else st.curr_offset) })

/-- `open_subroutine` from `symboltable.c`: insert the subroutine's name into
the currently active table first (failure leaves everything unchanged); on
success save the active table aside, make a fresh table active, and reset the
offset counter to 0. -/
def open_subroutine (shift_hash : String → Nat → Nat) (st : SymTabState)
    (id : String) (prop : IDPropt) : Bool × IDPropt × SymTabState :=
  let res := insert_name st id prop
  if res.1 = false then (false, res.2.1, res.2.2)
  else
    (true, res.2.1,
      { table := ht_init (3, 4) shift_hash key_strcmp
        saved_table := some res.2.2.table
        curr_offset := 0 })

/-- `get_variables_width` from `symboltable.c`. -/
def get_variables_width (st : SymTabState) : Nat := st.curr_offset

end Ampl

namespace Ampl

lemma find_name_of_active_some {st : SymTabState} {id : String} {p : IDPropt}
    (h : ht_search st.table id = some p) : find_name st id = some p := by
  unfold find_name
  rw [h]

lemma find_name_none_active {st : SymTabState} {id : String}
    (h : find_name st id = none) : ht_search st.table id = none := by
  unfold find_name at h
  cases hs : ht_search st.table id with
  | none => rfl
  | some q => rw [hs] at h; cases h

lemma insert_name_eq_found {st : SymTabState} {id : String} (prop : IDPropt)
    (h : (find_name st id).isSome) :
    insert_name st id prop = (false, prop, st) := by
  unfold insert_name
  rw [if_pos h]

lemma insert_name_eq_success {st : SymTabState} {id : String} (prop : IDPropt)
    (h : find_name st id = none) :
    insert_name st id prop =
      (true, { prop with offset := st.curr_offset },
        { st with
          table := (ht_insert st.table id { prop with offset := st.curr_offset }).2
          curr_offset := (if IS_VARIABLE prop.type
            then st.curr_offset + 1 else st.curr_offset) }) := by
  have hact := find_name_none_active h
  have hins := ht_insert_eq_of_absent hact { prop with offset := st.curr_offset }
  unfold insert_name
  rw [h]
  simp only [Option.isSome_none, Bool.false_eq_true, if_false, hins]
  norm_num

end Ampl

namespace Ampl

/-- Runs a sequence of `insert_name` declarations, collecting each call's
result flag and caller-visible property record alongside the final state. -/
def declare_run (st : SymTabState) :
    List (String × IDPropt) → List (Bool × IDPropt) × SymTabState
  | [] => ([], st)
  | d :: rest =>
    let r := insert_name st d.1 d.2
    let tail := declare_run r.2.2 rest
    ((r.1, r.2.1) :: tail.1, tail.2)

lemma declare_run_offsets (st : SymTabState) (ds : List (String × IDPropt))
    (hsucc : ∀ r ∈ (declare_run st ds).1, r.1 = true) :
    (((declare_run st ds).1.filter (fun r => IS_VARIABLE r.2.type)).map
        (fun r => r.2.offset))
      = List.range' st.curr_offset
          (((declare_run st ds).1.filter (fun r => IS_VARIABLE r.2.type)).length)
    ∧ (declare_run st ds).2.curr_offset = st.curr_offset +
        ((declare_run st ds).1.filter (fun r => IS_VARIABLE r.2.type)).length := by
  induction ds generalizing st with
  | nil => simp [declare_run]
  | cons d rest ih =>
    have hhead : (declare_run st (d :: rest)).1
        = ((insert_name st d.1 d.2).1, (insert_name st d.1 d.2).2.1)
          :: (declare_run (insert_name st d.1 d.2).2.2 rest).1 := rfl
    by_cases hf : (find_name st d.1).isSome
    · exfalso
      have h1 := hsucc _ (by rw [hhead]; exact List.mem_cons_self _ _)
      rw [insert_name_eq_found d.2 hf] at h1
      cases h1
    · have h : find_name st d.1 = none := Option.not_isSome_iff_eq_none.mp hf
      have heq := insert_name_eq_success d.2 h
      have hsucc2 : ∀ r ∈ (declare_run (insert_name st d.1 d.2).2.2 rest).1,
          r.1 = true := by
        intro r hr
        exact hsucc r (by rw [hhead]; exact List.mem_cons_of_mem _ hr)
      have ihr := ih (insert_name st d.1 d.2).2.2 hsucc2
      have htail : (declare_run st (d :: rest)).2
          = (declare_run (insert_name st d.1 d.2).2.2 rest).2 := rfl
      rw [hhead, htail, heq]
      simp only [List.filter_cons]
      have hoff : (insert_name st d.1 d.2).2.2.curr_offset
          = (if IS_VARIABLE d.2.type then st.curr_offset + 1 else st.curr_offset) := by
        rw [heq]
      rw [heq] at ihr
      cases hvar : IS_VARIABLE d.2.type with
      | true =>
        simp only [hvar, if_true] at ihr ⊢
        simp only [List.map_cons, List.length_cons, List.range'_succ]
        refine ⟨?_, ?_⟩
        · rw [ihr.1]
        · rw [ihr.2]
          omega
      | false =>
        simp only [hvar, if_false] at ihr ⊢
        exact ihr

end Ampl

namespace Ampl

/-- A trivially in-range string hash (for witnesses). -/
def strHash0 : String → Nat → Nat := fun _ _ => 0

/-- C1: while a subroutine scope is active (a saved global table exists),
`find_name` returns the properties of a hit in the active local table;
otherwise a hit in the saved global table is honored exactly when the found
entry's type is callable — for a global non-callable (plain variable) entry
the lookup reports undefined, as it does when both tables miss. -/
theorem find_name_scoped_lookup_spec (st : SymTabState)
    (sav : HashTab String IDPropt) (hsav : st.saved_table = some sav)
    (id : String) :
    (∀ p, ht_search st.table id = some p → find_name st id = some p)
    ∧ (ht_search st.table id = none →
        (∀ p, ht_search sav id = some p →
          find_name st id = (if IS_CALLABLE_TYPE p.type then some p else none))
        ∧ (ht_search sav id = none → find_name st id = none)) := by
  refine ⟨fun p h => find_name_of_active_some h, fun hnone => ⟨?_, ?_⟩⟩
  · intro p hp
    simp [find_name, hnone, hsav, hp]
  · intro hp
    simp [find_name, hnone, hsav, hp]

/-- A global integer variable record (for witnesses). -/
def xpropW : IDPropt := { type := TYPE_INTEGER, offset := 1, nparams := 0, params := [] }

/-- A global callable record (for witnesses). -/
def fpropW : IDPropt :=
  { type := TYPE_CALLABLE, offset := 0, nparams := 1, params := [TYPE_INTEGER] }

/-- A saved (global) table carrying the variable `x` and the callable `f`
(for the C1 witness). -/
def savW : HashTab String IDPropt :=
  (ht_insert (ht_insert (ht_init (3, 4) strHash0 key_strcmp) "x" xpropW).2
    "f" fpropW).2

/-- A symbol-table state inside a subroutine scope: fresh empty active table,
`savW` saved (for the C1 witness). -/
def stW : SymTabState :=
  { table := ht_init (3, 4) strHash0 key_strcmp
    saved_table := some savW
    curr_offset := 0 }

/-- Witness for C1 at concrete inputs: from inside a subroutine scope, the
global plain variable `x` is not resolvable, while the global callable `f`
is. -/
theorem find_name_scoped_lookup_witness :
    find_name stW "x" = none ∧ find_name stW "f" = some fpropW := by
  have hx := (find_name_scoped_lookup_spec stW savW rfl "x").2 (by decide)
  have hf := (find_name_scoped_lookup_spec stW savW rfl "f").2 (by decide)
  constructor
  · exact (hx.1 xpropW (by decide)).trans (by decide)
  · exact (hf.1 fpropW (by decide)).trans (by decide)

/-- C5: the offset counter starts at 1 in the global scope and at 0 in a
freshly opened subroutine scope, and along any sequence of successful
declarations the non-callable (variable) declarations receive the
consecutive offsets `base, base + 1, ...` — so the Nth variable gets
`base + N - 1` — while callable declarations never advance the counter (the
counter's final value counts only the variables). -/
theorem insert_name_offset_assignment (shift_hash : String → Nat → Nat) :
    ((init_symbol_table shift_hash).curr_offset = 1)
    ∧ (∀ st id prop, (open_subroutine shift_hash st id prop).1 = true →
        (open_subroutine shift_hash st id prop).2.2.curr_offset = 0)
    ∧ (∀ (st : SymTabState) (ds : List (String × IDPropt)),
        (∀ r ∈ (declare_run st ds).1, r.1 = true) →
        ((((declare_run st ds).1.filter (fun r => IS_VARIABLE r.2.type)).map
            (fun r => r.2.offset))
          = List.range' st.curr_offset
              (((declare_run st ds).1.filter (fun r => IS_VARIABLE r.2.type)).length))
        ∧ ((declare_run st ds).2.curr_offset = st.curr_offset +
            ((declare_run st ds).1.filter (fun r => IS_VARIABLE r.2.type)).length)) := by
  refine ⟨rfl, ?_, fun st ds h => declare_run_offsets st ds h⟩
  intro st id prop hok
  unfold open_subroutine at hok ⊢
  by_cases hfail : (insert_name st id prop).1 = false
  · rw [if_pos hfail] at hok
    cases hok
  · rw [if_neg hfail]

/-- The declaration sequence of the C5 witness: an integer variable, a
callable, then a boolean variable. -/
def witC5ds : List (String × IDPropt) :=
  [("x", { type := TYPE_INTEGER, offset := 0, nparams := 0, params := [] }),
   ("f", { type := TYPE_CALLABLE, offset := 0, nparams := 0, params := [] }),
   ("y", { type := TYPE_BOOLEAN, offset := 0, nparams := 0, params := [] })]

/-- Witness for C5 at concrete inputs: from the freshly initialised global
scope (base 1), declaring `x` (variable), `f` (callable), `y` (variable) all
succeeds; the variables receive offsets 1 and 2 and the counter ends at 3,
the callable having consumed no slot. -/
theorem insert_name_offset_assignment_witness :
    ((init_symbol_table strHash0).curr_offset = 1)
    ∧ (∀ r ∈ (declare_run (init_symbol_table strHash0) witC5ds).1, r.1 = true)
    ∧ (((declare_run (init_symbol_table strHash0) witC5ds).1.filter
          (fun r => IS_VARIABLE r.2.type)).map (fun r => r.2.offset)
        = List.range' 1
            (((declare_run (init_symbol_table strHash0) witC5ds).1.filter
              (fun r => IS_VARIABLE r.2.type)).length))
    ∧ ((declare_run (init_symbol_table strHash0) witC5ds).2.curr_offset
        = 1 + ((declare_run (init_symbol_table strHash0) witC5ds).1.filter
            (fun r => IS_VARIABLE r.2.type)).length) := by
  have h := insert_name_offset_assignment strHash0
  have hc := h.2.2 (init_symbol_table strHash0) witC5ds (by decide)
  exact ⟨h.1, by decide, hc.1, hc.2⟩

/-- C7: if the subroutine's name already resolves in the currently active
(global) table, `open_subroutine` fails and leaves the active table, the
saved table and the offset counter all unchanged; on success the active
table (now holding the subroutine's name) is saved aside, a fresh empty
table becomes active, and the offset counter is reset to 0. -/
theorem open_subroutine_spec (shift_hash : String → Nat → Nat)
    (st : SymTabState) (id : String) (prop : IDPropt) :
    (∀ p, ht_search st.table id = some p →
      open_subroutine shift_hash st id prop = (false, prop, st))
    ∧ ((open_subroutine shift_hash st id prop).1 = true →
      (open_subroutine shift_hash st id prop).2.2
        = { table := ht_init (3, 4) shift_hash key_strcmp
            saved_table := some (ht_insert st.table id
              { prop with offset := st.curr_offset }).2
            curr_offset := 0 }
      ∧ ∀ k, ht_search
          (open_subroutine shift_hash st id prop).2.2.table k = none) := by
  constructor
  · intro p hp
    have hfind : (find_name st id).isSome := by
      rw [find_name_of_active_some hp]
      rfl
    unfold open_subroutine
    rw [insert_name_eq_found prop hfind]
    rfl
  · intro hok
    unfold open_subroutine at hok ⊢
    by_cases hf : (find_name st id).isSome
    · rw [insert_name_eq_found prop hf] at hok ⊢
      cases hok
    · have h : find_name st id = none := Option.not_isSome_iff_eq_none.mp hf
      rw [insert_name_eq_success prop h] at hok ⊢
      refine ⟨rfl, ?_⟩
      intro k
      exact ht_search_init (3, 4) shift_hash key_strcmp k

/-- Witness for C7 at concrete inputs: opening subroutine `x` while `x` is
already a global name fails and changes nothing; opening subroutine `g` on a
fresh global scope succeeds, saves the updated global table, installs a
fresh empty active table and resets the counter to 0. -/
theorem open_subroutine_witness :
    (open_subroutine strHash0
        { table := savW, saved_table := none, curr_offset := 3 } "x" fpropW
      = (false, fpropW, { table := savW, saved_table := none, curr_offset := 3 }))
    ∧ ((open_subroutine strHash0 (init_symbol_table strHash0) "g" fpropW).2.2
        = { table := ht_init (3, 4) strHash0 key_strcmp
            saved_table := some (ht_insert (init_symbol_table strHash0).table "g"
              { fpropW with offset := 1 }).2
            curr_offset := 0 }
      ∧ ∀ k, ht_search
          (open_subroutine strHash0 (init_symbol_table strHash0) "g" fpropW).2.2.table
            k = none) := by
  constructor
  · exact (open_subroutine_spec strHash0
      { table := savW, saved_table := none, curr_offset := 3 } "x" fpropW).1
      xpropW (by decide)
  · exact (open_subroutine_spec strHash0 (init_symbol_table strHash0) "g" fpropW).2
      (by decide)

end Ampl

namespace Ampl

/-! ## Scanner (`scanner.c`)

The scanner works on C `int` characters (`static int ch`), so characters are
modelled as natural byte values (`'0' = 48`, `'{' = 123`, `'}' = 125`,
newline = 10) and end-of-file (`EOF = -1`) as `none`.  The scanner state
gathers the remaining input after the lookahead character, the lookahead
`ch` itself, and the position bookkeeping of `scanner.c`: the process-wide
`position.line` and the running `column_number`.
-/

/-- The scanner's mutable state: remaining input beyond `ch`, the lookahead
character `ch` (`none` = EOF), `position.line`, and `column_number`. -/
structure ScanState where
  input : List Nat
  ch : Option Nat
  line : Nat
  col : Nat

/-- `next_char` from `scanner.c`: fetch the next character; at EOF only the
column advances; otherwise the line advances (and the column resets to 1)
exactly when the previously consumed character was a newline. -/
def next_char (s : ScanState) : ScanState :=
  match s.input with
  | [] => { s with ch := none, col := s.col + 1 }
  | c :: rest =>
    if s.ch = some 10 then
      { input := rest, ch := some c, line := s.line + 1, col := 1 }
    else
      { input := rest, ch := some c, line := s.line, col := s.col + 1 }

/-- `init_scanner` from `scanner.c`: `position.line = 1`,
`position.col = column_number = 0`, then one `next_char` (the initial C
`ch` holds no character; `'\0'` stands for its indeterminate non-newline
value). -/
def init_scanner (src : List Nat) : ScanState :=
  next_char { input := src, ch := some 0, line := 1, col := 0 }

/-- `next_char` iterated. -/
def nextN : Nat → ScanState → ScanState
  | 0, s => s
  | n + 1, s => nextN n (next_char s)

/-- The character stream still to be scanned, lookahead first. -/
def stream (s : ScanState) : List Nat :=
  match s.ch with
  | some c => c :: s.input
  | none => []

/-- C `isdigit` on a byte value. -/
def isdigit (c : Nat) : Bool := decide (48 ≤ c ∧ c ≤ 57)

/-- `INT_MAX` of the target platform (32-bit `int`): `2^31 - 1`. -/
def INT_MAX : Nat := 2147483647

/-! ### Tokens (`token.h`, as fixed by `token.c`'s name table)

`token.h` is not among the sources; the token-kind enumeration is fixed by
the order of `token_names` in `token.c` (which `get_token_string` indexes by
kind), and the parser's range macros (`IS_ADDOP`) rely on that order.
Token kinds are modelled as the corresponding `Nat` codes.
-/

def TOK_EOF : Nat := 0
def TOK_ID : Nat := 1
def TOK_NUM : Nat := 2
def TOK_STR : Nat := 3
def TOK_ARRAY : Nat := 4
def TOK_BOOL : Nat := 5
def TOK_CHILLAX : Nat := 6
def TOK_ELIF : Nat := 7
def TOK_ELSE : Nat := 8
def TOK_END : Nat := 9
def TOK_IF : Nat := 10
def TOK_INPUT : Nat := 11
def TOK_INT : Nat := 12
def TOK_LET : Nat := 13
def TOK_MAIN : Nat := 14
def TOK_OUTPUT : Nat := 15
def TOK_PROGRAM : Nat := 16
def TOK_RETURN : Nat := 17
def TOK_WHILE : Nat := 18
def TOK_FALSE : Nat := 19
def TOK_TRUE : Nat := 20
def TOK_NOT : Nat := 21
def TOK_EQ : Nat := 22
def TOK_GE : Nat := 23
def TOK_GT : Nat := 24
def TOK_LE : Nat := 25
def TOK_LT : Nat := 26
def TOK_NE : Nat := 27
def TOK_MINUS : Nat := 28
def TOK_OR : Nat := 29
def TOK_PLUS : Nat := 30
def TOK_AND : Nat := 31
def TOK_DIV : Nat := 32
def TOK_MUL : Nat := 33
def TOK_REM : Nat := 34
def TOK_ARROW : Nat := 35
def TOK_COLON : Nat := 36
def TOK_COMMA : Nat := 37
def TOK_DOTDOT : Nat := 38
def TOK_LBRACK : Nat := 39
def TOK_LPAREN : Nat := 40
def TOK_RBRACK : Nat := 41
def TOK_RPAREN : Nat := 42
def TOK_SEMICOLON : Nat := 43

/-- The `Token` record (`token.h`): kind plus payload fields (identifier
lexeme, numeric value, string contents). -/
structure Token where
  type : Nat
  lexeme : String := ""
  value : Nat := 0
  string : String := ""

/-! ### `process_number` -/

/-- The digit loop of `process_number` (`scanner.c`): while the lookahead is
a digit, guard `number > (INT_MAX - nextnum) / 10` (a fatal "number too
large" otherwise, modelled as `.error`), then `number = 10 * number +
nextnum`.  Fuelled; `none` = fuel exhausted (never reached with fuel
exceeding the remaining input length). -/
def process_number_loop : Nat → Nat → ScanState → Option (Except Unit (Nat × ScanState))
  | 0, _, _ => none
  | fuel + 1, number, s =>
    match s.ch with
    | some c =>
      if isdigit c then
        let nextnum := c - 48
        if number > (INT_MAX - nextnum) / 10 then some (.error ())
        else process_number_loop fuel (10 * number + nextnum) (next_char s)
      else some (.ok (number, s))
    | none => some (.ok (number, s))

/-- `process_number` from `scanner.c`, entered with the lookahead at the
first digit: `number = ch - '0'`, `next_char`, then the digit loop; on
success the token is `TOK_NUM` carrying the accumulated value. -/
def process_number (fuel : Nat) (s : ScanState) :
    Option (Except Unit (Token × ScanState)) :=
  match s.ch with
  | some c =>
    match process_number_loop fuel (c - 48) (next_char s) with
    | none => none
    | some (.error e) => some (.error e)
    | some (.ok (number, s1)) =>
        some (.ok ({ type := TOK_NUM, value := number }, s1))
  | none => none

/-- The value denoted by a digit string, accumulated onto `acc`. -/
def digitsValFrom (acc : Nat) (ds : List Nat) : Nat :=
  ds.foldl (fun a d => 10 * a + (d - 48)) acc

end Ampl

namespace Ampl

lemma isdigit_iff (c : Nat) : isdigit c = true ↔ 48 ≤ c ∧ c ≤ 57 := by
  simp [isdigit]

lemma overflow_guard_iff (M acc d : Nat) (hdM : d ≤ M) :
    (M - d) / 10 < acc ↔ M < 10 * acc + d := by
  have h1 := Nat.div_add_mod (M - d) 10
  have h2 : (M - d) % 10 < 10 := Nat.mod_lt _ (by norm_num)
  omega

lemma digitsValFrom_nil (acc : Nat) : digitsValFrom acc [] = acc := rfl

lemma digitsValFrom_cons (acc d : Nat) (rest : List Nat) :
    digitsValFrom acc (d :: rest) = digitsValFrom (10 * acc + (d - 48)) rest := rfl

lemma digitsValFrom_ge (acc : Nat) (ds : List Nat) :
    acc ≤ digitsValFrom acc ds := by
  induction ds generalizing acc with
  | nil => exact Nat.le_refl _
  | cons d rest ih =>
    rw [digitsValFrom_cons]
    exact Nat.le_trans (by omega) (ih (10 * acc + (d - 48)))

/-- The digit prefix `process_number`'s loop is about to consume. -/
def remDigits (s : ScanState) : List Nat :=
  match s.ch with
  | some c => if isdigit c then c :: s.input.takeWhile isdigit else []
  | none => []

lemma stream_next {s : ScanState} {c : Nat} (h : s.ch = some c) :
    stream (next_char s) = s.input := by
  obtain ⟨input, ch, line, col⟩ := s
  cases input with
  | nil => rfl
  | cons a rest =>
    simp only [next_char]
    split <;> rfl

lemma remDigits_next {s : ScanState} {c : Nat} (h : s.ch = some c) :
    remDigits (next_char s) = s.input.takeWhile isdigit := by
  obtain ⟨input, ch, line, col⟩ := s
  cases input with
  | nil => rfl
  | cons a rest =>
    simp only [next_char]
    split <;> simp [remDigits, List.takeWhile_cons] <;> split <;> rfl

lemma process_number_loop_spec :
    ∀ (ds : List Nat) (s : ScanState) (acc fuel : Nat),
    remDigits s = ds →
    ds.length < fuel →
    acc ≤ INT_MAX →
    (digitsValFrom acc ds ≤ INT_MAX →
      ∃ s', process_number_loop fuel acc s
        = some (.ok (digitsValFrom acc ds, s')))
    ∧ (INT_MAX < digitsValFrom acc ds →
      process_number_loop fuel acc s = some (.error ())) := by
  intro ds
  induction ds with
  | nil =>
    intro s acc fuel hrem hfuel hacc
    obtain ⟨f, rfl⟩ : ∃ f, fuel = f + 1 := ⟨fuel - 1, by omega⟩
    constructor
    · intro _
      refine ⟨s, ?_⟩
      unfold process_number_loop
      cases hch : s.ch with
      | none => rw [digitsValFrom_nil]
      | some c =>
        have hnd : ¬ isdigit c = true := by
          intro hd
          simp [remDigits, hch, hd] at hrem
        simp [hnd, digitsValFrom_nil]
    · intro hv
      rw [digitsValFrom_nil] at hv
      omega
  | cons d rest ih =>
    intro s acc fuel hrem hfuel hacc
    have hsplit : s.ch = some d ∧ isdigit d = true
        ∧ s.input.takeWhile isdigit = rest := by
      cases hc : s.ch with
      | none => simp [remDigits, hc] at hrem
      | some c0 =>
        by_cases hd : isdigit c0 = true
        · simp only [remDigits, hc] at hrem
          rw [if_pos hd] at hrem
          injection hrem with h1 h2
          rw [h1] at hd
          exact ⟨by rw [h1], hd, h2⟩
        · simp [remDigits, hc, hd] at hrem
    obtain ⟨hch, hdig, htw⟩ := hsplit
    obtain ⟨f, rfl⟩ : ∃ f, fuel = f + 1 := ⟨fuel - 1, by omega⟩
    have hd57 := (isdigit_iff d).mp hdig
    have hguard := overflow_guard_iff INT_MAX acc (d - 48)
      (by unfold INT_MAX; omega)
    rw [digitsValFrom_cons]
    unfold process_number_loop
    rw [hch]
    simp only [hdig, if_true]
    by_cases hover : (INT_MAX - (d - 48)) / 10 < acc
    · rw [if_pos hover]
      have hbig : INT_MAX < digitsValFrom (10 * acc + (d - 48)) rest :=
        Nat.lt_of_lt_of_le (hguard.mp hover)
          (digitsValFrom_ge (10 * acc + (d - 48)) rest)
      constructor
      · intro hv
        omega
      · intro _
        rfl
    · rw [if_neg hover]
      have hacc2 : 10 * acc + (d - 48) ≤ INT_MAX := by
        rcases Nat.lt_or_ge INT_MAX (10 * acc + (d - 48)) with hlt | hge
        · exact absurd (hguard.mpr hlt) hover
        · exact hge
      exact ih (next_char s) (10 * acc + (d - 48)) f
        (by rw [remDigits_next hch, htw])
        (by simpa using Nat.lt_of_succ_lt_succ hfuel)
        hacc2

/-- C8: entered at a decimal digit, `process_number` produces a `TOK_NUM`
token carrying exactly the value denoted by the maximal digit run whenever
that value is at most `INT_MAX`, and reports the fatal "number too large"
lexical error (never a wrapped-around value) whenever the denoted value
exceeds `INT_MAX`. -/
theorem process_number_exact_or_overflow (s : ScanState) (c : Nat)
    (hch : s.ch = some c) (hdig : isdigit c = true)
    (fuel : Nat) (hfuel : s.input.length + 1 < fuel) :
    (digitsValFrom 0 (c :: s.input.takeWhile isdigit) ≤ INT_MAX →
      ∃ s', process_number fuel s = some (.ok
        ({ type := TOK_NUM,
           value := digitsValFrom 0 (c :: s.input.takeWhile isdigit) }, s')))
    ∧ (INT_MAX < digitsValFrom 0 (c :: s.input.takeWhile isdigit) →
      process_number fuel s = some (.error ())) := by
  have hc57 := (isdigit_iff c).mp hdig
  have hlen : (s.input.takeWhile isdigit).length < fuel :=
    Nat.lt_of_le_of_lt
      (Nat.le_trans (List.takeWhile_sublist isdigit).length_le (Nat.le_succ _)) hfuel
  have hloop := process_number_loop_spec (s.input.takeWhile isdigit)
    (next_char s) (c - 48) fuel (remDigits_next hch) hlen
    (by unfold INT_MAX; omega)
  have hval : digitsValFrom 0 (c :: s.input.takeWhile isdigit)
      = digitsValFrom (c - 48) (s.input.takeWhile isdigit) := by
    rw [digitsValFrom_cons, Nat.mul_zero, Nat.zero_add]
  constructor
  · intro hv
    rw [hval] at hv ⊢
    obtain ⟨s', hs'⟩ := hloop.1 hv
    refine ⟨s', ?_⟩
    simp only [process_number, hch]
    rw [hs']
  · intro hv
    rw [hval] at hv
    have herr := hloop.2 hv
    simp only [process_number, hch]
    rw [herr]

/-- The digit string `2147483647` (= `INT_MAX`), as byte values. -/
def witC8okInput : List Nat := [50, 49, 52, 55, 52, 56, 51, 54, 52, 55]

/-- The digit string `2147483648` (= `INT_MAX + 1`), as byte values. -/
def witC8ovInput : List Nat := [50, 49, 52, 55, 52, 56, 51, 54, 52, 56]

/-- Witness for C8 at concrete inputs: scanning `2147483647` yields a
`TOK_NUM` token with exactly that value; scanning `2147483648` is the fatal
overflow error. -/
theorem process_number_exact_or_overflow_witness :
    (∃ s', process_number 12 (init_scanner witC8okInput)
      = some (.ok ({ type := TOK_NUM, value := 2147483647 }, s')))
    ∧ process_number 12 (init_scanner witC8ovInput) = some (.error ()) := by
  have h1 := process_number_exact_or_overflow (init_scanner witC8okInput) 50
    (by decide) (by decide) 12 (by decide)
  have h2 := process_number_exact_or_overflow (init_scanner witC8ovInput) 50
    (by decide) (by decide) 12 (by decide)
  constructor
  · obtain ⟨s', hs'⟩ := h1.1 (by decide)
    have hv : digitsValFrom 0
        (50 :: (init_scanner witC8okInput).input.takeWhile isdigit)
        = 2147483647 := by decide
    rw [hv] at hs'
    exact ⟨s', hs'⟩
  · exact h2.2 (by decide)

end Ampl

namespace Ampl

/-! ### `skip_comment` (`scanner.c`)

`skip_comment` is entered with the lookahead at an opening `'{'` (byte 123).
It records the opening position (`position.line`, `column_number`), consumes
the brace, and walks forward: a `'}'` (byte 125) ends the comment (left as
the lookahead for the caller to consume); a nested `'{'` recursively skips
the nested comment and then consumes its closing brace; end-of-input resets
the process position to the recorded opening position and raises the fatal
"comment not closed" error (modelled as `.error` carrying that position).
Fuelled; `none` = fuel exhausted, never reached when the fuel exceeds the
remaining input length.
-/

def skip_comment_loop : Nat → ScanState → Nat × Nat → Option (Except (Nat × Nat) ScanState)
  | 0, _, _ => none
  | fuel + 1, s, start =>
    match s.ch with
    | none => some (.error start)
    | some c =>
      if c = 125 then some (.ok s)
      else if c = 123 then
        match skip_comment_loop fuel (next_char s) (s.line, s.col) with
        | none => none
        | some (.error p) => some (.error p)
        | some (.ok s1) => skip_comment_loop fuel (next_char s1) start
      else skip_comment_loop fuel (next_char s) start

def skip_comment : Nat → ScanState → Option (Except (Nat × Nat) ScanState)
  | 0, _ => none
  | fuel + 1, s => skip_comment_loop fuel (next_char s) (s.line, s.col)

/-- Balanced comment bodies: sequences of non-brace characters and complete
nested comments. -/
inductive Bal : List Nat → Prop where
  | nil : Bal []
  | chr {c : Nat} {cs : List Nat} : c ≠ 123 → c ≠ 125 → Bal cs → Bal (c :: cs)
  | nest {inner rest : List Nat} : Bal inner → Bal rest →
      Bal (123 :: (inner ++ 125 :: rest))

lemma stream_cons {t : ScanState} {c : Nat} {l : List Nat}
    (h : stream t = c :: l) : t.ch = some c ∧ t.input = l := by
  unfold stream at h
  cases hc : t.ch with
  | none => rw [hc] at h; cases h
  | some c0 =>
    rw [hc] at h
    injection h with h1 h2
    exact ⟨by rw [h1], h2⟩

lemma stream_eq_nil {t : ScanState} (h : stream t = []) : t.ch = none := by
  unfold stream at h
  cases hc : t.ch with
  | none => rfl
  | some c0 => rw [hc] at h; cases h

lemma nextN_nextN (a b : Nat) (t : ScanState) :
    nextN a (nextN b t) = nextN (b + a) t := by
  induction b generalizing t with
  | zero =>
    rw [Nat.zero_add]
    rfl
  | succ b ih =>
    show nextN a (nextN b (next_char t)) = nextN (b + 1 + a) t
    rw [ih (next_char t)]
    show nextN (b + a) (next_char t) = nextN (b + 1 + a) t
    rw [show b + 1 + a = (b + a) + 1 by omega]
    rfl

lemma next_char_eq_nextN_one (t : ScanState) : next_char t = nextN 1 t := rfl

end Ampl

namespace Ampl

lemma skip_comment_loop_ok {body : List Nat} (hb : Bal body) :
    ∀ (t : ScanState) (start : Nat × Nat) (rest : List Nat) (fuel : Nat),
    stream t = body ++ 125 :: rest →
    body.length + 1 ≤ fuel →
    skip_comment_loop fuel t start = some (.ok (nextN body.length t))
    ∧ (nextN body.length t).ch = some 125
    ∧ (nextN body.length t).input = rest := by
  induction hb with
  | nil =>
    intro t start rest fuel hstream hfuel
    rw [List.nil_append] at hstream
    obtain ⟨tch, tin⟩ := stream_cons hstream
    obtain ⟨f, rfl⟩ : ∃ f, fuel = f + 1 := ⟨fuel - 1, by omega⟩
    refine ⟨?_, tch, tin⟩
    simp only [skip_comment_loop, tch]
    rfl
  | chr hc1 hc2 hcs ih =>
    rename_i c cs
    intro t start rest fuel hstream hfuel
    rw [List.cons_append] at hstream
    obtain ⟨tch, tin⟩ := stream_cons hstream
    obtain ⟨f, rfl⟩ : ∃ f, fuel = f + 1 := ⟨fuel - 1, by omega⟩
    have hstream2 : stream (next_char t) = cs ++ 125 :: rest := by
      rw [stream_next tch, tin]
    have hfuel2 : cs.length + 1 ≤ f := by
      simp only [List.length_cons] at hfuel
      omega
    have ihr := ih (next_char t) start rest f hstream2 hfuel2
    refine ⟨?_, ihr.2.1, ihr.2.2⟩
    simp only [skip_comment_loop, tch]
    rw [if_neg hc2, if_neg hc1]
    exact ihr.1
  | nest hinner hrest ihInner ihRest =>
    rename_i inner rest1
    intro t start rest fuel hstream hfuel
    rw [List.cons_append] at hstream
    obtain ⟨tch, tin⟩ := stream_cons hstream
    obtain ⟨f, rfl⟩ : ∃ f, fuel = f + 1 := ⟨fuel - 1, by omega⟩
    have hlen : (123 :: (inner ++ 125 :: rest1)).length
        = inner.length + rest1.length + 2 := by
      simp [List.length_append]
      omega
    have hstream2 : stream (next_char t) = inner ++ 125 :: (rest1 ++ 125 :: rest) := by
      rw [stream_next tch, tin, List.append_assoc, List.cons_append]
    have hfuel2 : inner.length + 1 ≤ f := by
      rw [hlen] at hfuel
      omega
    have hI := ihInner (next_char t) (t.line, t.col) (rest1 ++ 125 :: rest) f
      hstream2 hfuel2
    have hstream3 : stream (next_char (nextN inner.length (next_char t)))
        = rest1 ++ 125 :: rest := by
      rw [stream_next hI.2.1, hI.2.2]
    have hfuel3 : rest1.length + 1 ≤ f := by
      rw [hlen] at hfuel
      omega
    have hR := ihRest (next_char (nextN inner.length (next_char t))) start rest f
      hstream3 hfuel3
    have hcomp : nextN rest1.length (next_char (nextN inner.length (next_char t)))
        = nextN (123 :: (inner ++ 125 :: rest1)).length t := by
      rw [next_char_eq_nextN_one t, next_char_eq_nextN_one (nextN inner.length _),
        nextN_nextN, nextN_nextN, nextN_nextN, hlen]
      rw [show 1 + (inner.length + (1 + rest1.length))
        = inner.length + rest1.length + 2 by omega]
    refine ⟨?_, by rw [← hcomp]; exact hR.2.1, by rw [← hcomp]; exact hR.2.2⟩
    simp only [skip_comment_loop, tch]
    rw [if_neg (by decide), if_pos trivial, hI.1]
    show skip_comment_loop f (next_char (nextN inner.length (next_char t))) start
        = some (Except.ok (nextN (123 :: (inner ++ 125 :: rest1)).length t))
    rw [hR.1, hcomp]

end Ampl

namespace Ampl

lemma skip_comment_loop_err {body : List Nat} (hb : Bal body) :
    ∀ (t : ScanState) (start : Nat × Nat) (fuel : Nat),
    stream t = body →
    body.length + 1 ≤ fuel →
    skip_comment_loop fuel t start = some (.error start) := by
  induction hb with
  | nil =>
    intro t start fuel hstream hfuel
    have tch := stream_eq_nil hstream
    obtain ⟨f, rfl⟩ : ∃ f, fuel = f + 1 := ⟨fuel - 1, by omega⟩
    simp only [skip_comment_loop, tch]
  | chr hc1 hc2 hcs ih =>
    rename_i c cs
    intro t start fuel hstream hfuel
    obtain ⟨tch, tin⟩ := stream_cons hstream
    obtain ⟨f, rfl⟩ : ∃ f, fuel = f + 1 := ⟨fuel - 1, by omega⟩
    have hstream2 : stream (next_char t) = cs := by
      rw [stream_next tch, tin]
    have hfuel2 : cs.length + 1 ≤ f := by
      simp only [List.length_cons] at hfuel
      omega
    simp only [skip_comment_loop, tch]
    rw [if_neg hc2, if_neg hc1]
    exact ih (next_char t) start f hstream2 hfuel2
  | nest hinner hrest ihInner ihRest =>
    rename_i inner rest1
    intro t start fuel hstream hfuel
    obtain ⟨tch, tin⟩ := stream_cons hstream
    obtain ⟨f, rfl⟩ : ∃ f, fuel = f + 1 := ⟨fuel - 1, by omega⟩
    have hlen : (123 :: (inner ++ 125 :: rest1)).length
        = inner.length + rest1.length + 2 := by
      simp [List.length_append]
      omega
    have hstream2 : stream (next_char t) = inner ++ 125 :: rest1 := by
      rw [stream_next tch, tin]
    have hI := skip_comment_loop_ok hinner (next_char t) (t.line, t.col) rest1 f
      hstream2 (by rw [hlen] at hfuel; omega)
    have hstream3 : stream (next_char (nextN inner.length (next_char t))) = rest1 := by
      rw [stream_next hI.2.1, hI.2.2]
    simp only [skip_comment_loop, tch]
    rw [if_neg (by decide), if_pos trivial, hI.1]
    show skip_comment_loop f (next_char (nextN inner.length (next_char t))) start
        = some (Except.error start)
    exact ihRest (next_char (nextN inner.length (next_char t))) start f hstream3
      (by rw [hlen] at hfuel; omega)

lemma skip_comment_loop_err_nested {body : List Nat} (hb : Bal body) :
    ∀ (body2 : List Nat), Bal body2 →
    ∀ (t : ScanState) (start : Nat × Nat) (fuel : Nat),
    stream t = body ++ 123 :: body2 →
    body.length + body2.length + 2 ≤ fuel →
    skip_comment_loop fuel t start
      = some (.error ((nextN body.length t).line, (nextN body.length t).col)) := by
  induction hb with
  | nil =>
    intro body2 hb2 t start fuel hstream hfuel
    rw [List.nil_append] at hstream
    obtain ⟨tch, tin⟩ := stream_cons hstream
    obtain ⟨f, rfl⟩ : ∃ f, fuel = f + 1 := ⟨fuel - 1, by omega⟩
    have hstream2 : stream (next_char t) = body2 := by
      rw [stream_next tch, tin]
    have hI := skip_comment_loop_err hb2 (next_char t) (t.line, t.col) f hstream2
      (by simp at hfuel; omega)
    simp only [skip_comment_loop, tch]
    rw [if_neg (by decide), if_pos trivial, hI]
    rfl
  | chr hc1 hc2 hcs ih =>
    rename_i c cs
    intro body2 hb2 t start fuel hstream hfuel
    rw [List.cons_append] at hstream
    obtain ⟨tch, tin⟩ := stream_cons hstream
    obtain ⟨f, rfl⟩ : ∃ f, fuel = f + 1 := ⟨fuel - 1, by omega⟩
    have hstream2 : stream (next_char t) = cs ++ 123 :: body2 := by
      rw [stream_next tch, tin]
    simp only [skip_comment_loop, tch]
    rw [if_neg hc2, if_neg hc1]
    exact ih body2 hb2 (next_char t) start f hstream2
      (by simp only [List.length_cons] at hfuel; omega)
  | nest hinner hrest ihInner ihRest =>
    rename_i inner rest1
    intro body2 hb2 t start fuel hstream hfuel
    rw [List.cons_append] at hstream
    obtain ⟨tch, tin⟩ := stream_cons hstream
    obtain ⟨f, rfl⟩ : ∃ f, fuel = f + 1 := ⟨fuel - 1, by omega⟩
    have hlen : (123 :: (inner ++ 125 :: rest1)).length
        = inner.length + rest1.length + 2 := by
      simp [List.length_append]
      omega
    have hstream2 : stream (next_char t)
        = inner ++ 125 :: (rest1 ++ 123 :: body2) := by
      rw [stream_next tch, tin, List.append_assoc, List.cons_append]
    have hI := skip_comment_loop_ok hinner (next_char t) (t.line, t.col)
      (rest1 ++ 123 :: body2) f hstream2 (by rw [hlen] at hfuel; omega)
    have hstream3 : stream (next_char (nextN inner.length (next_char t)))
        = rest1 ++ 123 :: body2 := by
      rw [stream_next hI.2.1, hI.2.2]
    have hR := ihRest body2 hb2 (next_char (nextN inner.length (next_char t)))
      start f hstream3 (by rw [hlen] at hfuel; omega)
    have hcomp : nextN rest1.length (next_char (nextN inner.length (next_char t)))
        = nextN (123 :: (inner ++ 125 :: rest1)).length t := by
      rw [next_char_eq_nextN_one t, next_char_eq_nextN_one (nextN inner.length _),
        nextN_nextN, nextN_nextN, nextN_nextN, hlen]
      rw [show 1 + (inner.length + (1 + rest1.length))
        = inner.length + rest1.length + 2 by omega]
    simp only [skip_comment_loop, tch]
    rw [if_neg (by decide), if_pos trivial, hI.1]
    show skip_comment_loop f (next_char (nextN inner.length (next_char t))) start
        = some (Except.error ((nextN (123 :: (inner ++ 125 :: rest1)).length t).line,
          (nextN (123 :: (inner ++ 125 :: rest1)).length t).col))
    rw [hR, hcomp]

end Ampl

namespace Ampl

/-- C9: entered at an opening brace, `skip_comment` skips a balanced
brace-delimited comment whole, however deeply its comments nest (the
matching closing brace becomes the lookahead and exactly the input beyond
it remains); if end-of-input is reached while a comment is still open, the
fatal "comment not closed" error is reported at the opening position of the
(innermost still-open) comment — in particular, when the unterminated
comment has no unclosed nested comment, at that comment's own opening
position. -/
theorem skip_comment_nesting_spec :
    (∀ (s : ScanState) (body rest : List Nat) (fuel : Nat),
      s.ch = some 123 → Bal body → s.input = body ++ 125 :: rest →
      body.length + 2 ≤ fuel →
      skip_comment fuel s = some (.ok (nextN (body.length + 1) s))
        ∧ (nextN (body.length + 1) s).ch = some 125
        ∧ (nextN (body.length + 1) s).input = rest)
    ∧ (∀ (s : ScanState) (body : List Nat) (fuel : Nat),
      s.ch = some 123 → Bal body → s.input = body →
      body.length + 2 ≤ fuel →
      skip_comment fuel s = some (.error (s.line, s.col)))
    ∧ (∀ (s : ScanState) (body body2 : List Nat) (fuel : Nat),
      s.ch = some 123 → Bal body → Bal body2 → s.input = body ++ 123 :: body2 →
      body.length + body2.length + 3 ≤ fuel →
      skip_comment fuel s = some (.error
        ((nextN (body.length + 1) s).line, (nextN (body.length + 1) s).col))) := by
  refine ⟨?_, ?_, ?_⟩
  · intro s body rest fuel hch hb hin hfuel
    obtain ⟨f, rfl⟩ : ∃ f, fuel = f + 1 := ⟨fuel - 1, by omega⟩
    have hstream : stream (next_char s) = body ++ 125 :: rest := by
      rw [stream_next hch, hin]
    have h := skip_comment_loop_ok hb (next_char s) (s.line, s.col) rest f hstream
      (by omega)
    have hn : nextN body.length (next_char s) = nextN (body.length + 1) s := rfl
    rw [hn] at h
    exact h
  · intro s body fuel hch hb hin hfuel
    obtain ⟨f, rfl⟩ : ∃ f, fuel = f + 1 := ⟨fuel - 1, by omega⟩
    have hstream : stream (next_char s) = body := by
      rw [stream_next hch, hin]
    exact skip_comment_loop_err hb (next_char s) (s.line, s.col) f hstream (by omega)
  · intro s body body2 fuel hch hb hb2 hin hfuel
    obtain ⟨f, rfl⟩ : ∃ f, fuel = f + 1 := ⟨fuel - 1, by omega⟩
    have hstream : stream (next_char s) = body ++ 123 :: body2 := by
      rw [stream_next hch, hin]
    have h := skip_comment_loop_err_nested hb body2 hb2 (next_char s)
      (s.line, s.col) f hstream (by omega)
    have hn : nextN body.length (next_char s) = nextN (body.length + 1) s := rfl
    rw [hn] at h
    exact h

/-- `{a{b}c}x` as byte values (for the C9 witness). -/
def witC9okInput : List Nat := [123, 97, 123, 98, 125, 99, 125, 120]

/-- `{ab` as byte values: an unterminated comment (for the C9 witness). -/
def witC9errInput : List Nat := [123, 97, 98]

/-- `{a{b` as byte values: an unterminated nested comment (for the C9
witness). -/
def witC9nestedInput : List Nat := [123, 97, 123, 98]

/-- The body of the balanced comment of the C9 witness: `a{b}c`. -/
lemma witC9bal : Bal [97, 123, 98, 125, 99] :=
  Bal.chr (by decide) (by decide)
    (Bal.nest (Bal.chr (by decide) (by decide) Bal.nil)
      (Bal.chr (by decide) (by decide) Bal.nil))

/-- Witness for C9 at concrete inputs: `{a{b}c}x` is skipped whole (the
closing `}` of column 7 becomes the lookahead and `x` remains); `{ab` dies
with "comment not closed" at the comment's opening position (1,1); `{a{b`
dies at the inner `{`'s position (1,3). -/
theorem skip_comment_nesting_witness :
    (skip_comment 12 (init_scanner witC9okInput)
        = some (.ok (nextN 6 (init_scanner witC9okInput)))
      ∧ (nextN 6 (init_scanner witC9okInput)).ch = some 125
      ∧ (nextN 6 (init_scanner witC9okInput)).input = [120])
    ∧ (skip_comment 12 (init_scanner witC9errInput)
        = some (.error (1, 1))
      ∧ (init_scanner witC9errInput).line = 1
      ∧ (init_scanner witC9errInput).col = 1)
    ∧ (skip_comment 12 (init_scanner witC9nestedInput)
        = some (.error ((nextN 2 (init_scanner witC9nestedInput)).line,
          (nextN 2 (init_scanner witC9nestedInput)).col))
      ∧ (nextN 2 (init_scanner witC9nestedInput)).line = 1
      ∧ (nextN 2 (init_scanner witC9nestedInput)).col = 3
      ∧ (nextN 2 (init_scanner witC9nestedInput)).ch = some 123) := by
  have h := skip_comment_nesting_spec
  refine ⟨?_, ⟨?_, by decide, by decide⟩, ⟨?_, by decide, by decide, by decide⟩⟩
  · exact h.1 (init_scanner witC9okInput) [97, 123, 98, 125, 99] [120] 12
      (by decide) witC9bal (by decide) (by decide)
  · have he := h.2.1 (init_scanner witC9errInput) [97, 98] 12 (by decide)
      (Bal.chr (by decide) (by decide) (Bal.chr (by decide) (by decide) Bal.nil))
      (by decide) (by decide)
    rw [he]
    have : ((init_scanner witC9errInput).line, (init_scanner witC9errInput).col)
        = ((1 : Nat), (1 : Nat)) := by decide
    rw [this]
  · exact h.2.2 (init_scanner witC9nestedInput) [97] [98] 12 (by decide)
      (Bal.chr (by decide) (by decide) Bal.nil)
      (Bal.chr (by decide) (by decide) Bal.nil) (by decide) (by decide)

end Ampl

namespace Ampl

/-! ## Parser / translator fragment (`amplc.c`)

The recursive-descent routines relevant to the claims: `parse_assign` and
the expression hierarchy `parse_expr` / `parse_simple` / `parse_term` /
`parse_factor` with `parse_index` and `parse_arglist`, together with the
`expect` / `expect_id` primitives and the (never invoked) `chktypes`.

The single lookahead token and the code-generation side effects are made
explicit: the parser state carries the remaining token list (the head is the
lookahead; `get_token` is modelled by dropping it), the symbol-table state,
and the sequence of emission calls issued so far.  Emission constants whose
numeric values live in the out-of-source `codegen.h` are modelled by
constructors named after the calls (`gen_1`/`gen_2`/`gen_cmp`/`gen_newarray`
/`gen_call`).

An outcome is `ok` (the routine returned), `err` (a fatal report through
`abort_c`/`leprintf` followed by process exit), or `crash` (undefined
behaviour: dereference of a NULL `IDPropt` pointer).  The fuel wrapper
(`none` = fuel exhausted) only serves termination; all claims are settled at
fuels large enough never to reach it.
-/

/-- The code-generation calls the modelled fragment can issue. -/
inductive Instr where
  | LDC (v : Nat)
  | IADD
  | ISUB
  | IOR
  | IMUL
  | IDIV
  | IAND
  | IREM
  | INEG
  | IXOR
  | ILOAD (off : Nat)
  | ISTORE (off : Nat)
  | ALOAD (off : Nat)
  | ASTORE (off : Nat)
  | IALOAD
  | IASTORE
  | NEWARRAY (atype : Nat)
  | CALL (id : String)
  | CMP (opcode : Nat)

/-- JVM `newarray` array-type codes (`T_BOOLEAN`, `T_INT`). -/
def T_BOOLEAN : Nat := 4

def T_INT : Nat := 10

/-- JVM comparison opcodes passed to `gen_cmp` (values of the standard JVM
instructions the `codegen.h` names denote). -/
def JVM_IF_ICMPEQ : Nat := 159
def JVM_IF_ICMPNE : Nat := 160
def JVM_IF_ICMPLT : Nat := 161
def JVM_IF_ICMPGE : Nat := 162
def JVM_IF_ICMPGT : Nat := 163
def JVM_IF_ICMPLE : Nat := 164

/-- The parser error reports (`errmsg.h` / `_abort_cp` / `chktypes`).
`ERR_UNKNOWN_IDENTIFIER` is declared by the error unit; whether any parse
routine ever raises it is exactly what claim C6 is about. -/
inductive Error where
  | ERR_EXPECT (toktype : Nat)
  | ERR_EXPECTED_FACTOR
  | ERR_EXPECTED_STATEMENT
  | ERR_EXPECTED_EXPRESSION_OR_ARRAY_ALLOCATION
  | ERR_EXPECTED_EXPRESSION_OR_STRING
  | ERR_UNKNOWN_IDENTIFIER
  | TYPE_INCOMPAT (expected found : ValType)

/-- Outcome of a parse routine: normal return, fatal report-and-exit, or
undefined behaviour (NULL-pointer dereference). -/
inductive POut (α : Type) where
  | ok (a : α)
  | err (e : Error)
  | crash

/-- The translator's state: remaining tokens (head = the lookahead), the
symbol table, and the emission calls issued so far (in order). -/
structure ParseState where
  toks : List Token
  sym : SymTabState
  code : List Instr

/-- The single lookahead token (`token`). -/
def currentTok (ps : ParseState) : Token := ps.toks.headD { type := TOK_EOF }

/-- `get_token(&token)`: replace the lookahead with the next token. -/
def advanceTok (ps : ParseState) : ParseState := { ps with toks := ps.toks.tail }

/-- Issue one code-generation call. -/
def emit (i : Instr) (ps : ParseState) : ParseState :=
  { ps with code := ps.code ++ [i] }

/-- Propagate fatal reports, crashes and fuel exhaustion (the C originals
never return from `abort_c`/`leprintf`). -/
def pbind {α β : Type} (x : Option (POut α)) (f : α → Option (POut β)) :
    Option (POut β) :=
  match x with
  | none => none
  | some (.err e) => some (.err e)
  | some .crash => some .crash
  | some (.ok a) => f a

/-- `expect` from `amplc.c`. -/
def expect (t : Nat) (ps : ParseState) : POut ParseState :=
  if (currentTok ps).type = t then .ok (advanceTok ps) else .err (.ERR_EXPECT t)

/-- `expect_id` from `amplc.c`: yields a copy of the lexeme. -/
def expect_id (ps : ParseState) : POut (String × ParseState) :=
  if (currentTok ps).type = TOK_ID then .ok ((currentTok ps).lexeme, advanceTok ps)
  else .err (.ERR_EXPECT TOK_ID)

/-- `STARTS_FACTOR` from `amplc.c`. -/
def STARTS_FACTOR (t : Nat) : Bool :=
  decide (t = TOK_ID ∨ t = TOK_NUM ∨ t = TOK_LPAREN ∨ t = TOK_NOT
    ∨ t = TOK_TRUE ∨ t = TOK_FALSE)

/-- `STARTS_EXPR` from `amplc.c`. -/
def STARTS_EXPR (t : Nat) : Bool := decide (t = TOK_MINUS) || STARTS_FACTOR t

/-- `IS_ADDOP` from `amplc.c` (a token-code range test). -/
def IS_ADDOP (t : Nat) : Bool := decide (TOK_MINUS ≤ t ∧ t ≤ TOK_PLUS)

/-- `IS_MULOP` from `amplc.c`. -/
def IS_MULOP (t : Nat) : Bool :=
  decide (t = TOK_AND ∨ t = TOK_DIV ∨ t = TOK_MUL ∨ t = TOK_REM)

/-- `IS_RELOP` from `amplc.c`. -/
def IS_RELOP (t : Nat) : Bool :=
  decide (t = TOK_EQ ∨ t = TOK_GE ∨ t = TOK_GT ∨ t = TOK_LE ∨ t = TOK_LT
    ∨ t = TOK_NE)

/-- `chktypes` from `amplc.c`: the fatal "incompatible types (expected X,
found Y)" report when the types differ.  The function is present in the
source, but no parse routine ever calls it. -/
def chktypes (found expected : ValType) : POut Unit :=
  if found ≠ expected then .err (.TYPE_INCOMPAT expected found) else .ok ()

end Ampl

namespace Ampl

mutual

/-- `parse_factor` from `amplc.c`.  In the identifier case the Boolean
result of `find_name` is ignored and `*vt = propt->type` dereferences the
properties pointer unconditionally, so an unresolvable identifier is a NULL
dereference (`crash`), not a reported error. -/
def parse_factor : Nat → ParseState → Option (POut (ValType × ParseState))
  | 0, _ => none
  | fuel + 1, ps =>
    if (currentTok ps).type = TOK_ID then
      pbind (some (expect_id ps)) fun r =>
        match find_name r.2.sym r.1 with
        | none => some .crash
        | some propt =>
          if (currentTok r.2).type = TOK_LBRACK then
            pbind (parse_index fuel (emit (.ALOAD propt.offset) r.2)) fun ps3 =>
              some (.ok (SET_BASE_TYPE propt.type, emit .IALOAD ps3))
          else if (currentTok r.2).type = TOK_LPAREN then
            pbind (parse_arglist fuel r.2) fun ps3 =>
              some (.ok (propt.type, emit (.CALL r.1) ps3))
          else if IS_ARRAY_TYPE propt.type then
            some (.ok (propt.type, emit (.ALOAD propt.offset) r.2))
          else
            some (.ok (propt.type, emit (.ILOAD propt.offset) r.2))
    else if (currentTok ps).type = TOK_NUM then
      some (.ok (TYPE_INTEGER, advanceTok (emit (.LDC (currentTok ps).value) ps)))
    else if (currentTok ps).type = TOK_LPAREN then
      pbind (parse_expr fuel (advanceTok ps)) fun r =>
        pbind (some (expect TOK_RPAREN r.2)) fun ps3 =>
          some (.ok (r.1, ps3))
    else if (currentTok ps).type = TOK_NOT then
      pbind (parse_factor fuel (advanceTok ps)) fun r =>
        some (.ok (r.1, emit .IXOR (emit (.LDC 1) r.2)))
    else if (currentTok ps).type = TOK_TRUE then
      some (.ok (TYPE_BOOLEAN, advanceTok (emit (.LDC 1) ps)))
    else if (currentTok ps).type = TOK_FALSE then
      some (.ok (TYPE_BOOLEAN, advanceTok (emit (.LDC 0) ps)))
    else
      some (.err .ERR_EXPECTED_FACTOR)

/-- The `while (IS_MULOP(token.type))` loop of `parse_term`; the factor's
type is written through the same pointer each iteration. -/
def parse_term_loop : Nat → ValType → ParseState → Option (POut (ValType × ParseState))
  | 0, _, _ => none
  | fuel + 1, vt, ps =>
    if IS_MULOP (currentTok ps).type then
      if (currentTok ps).type = TOK_MUL then
        pbind (parse_factor fuel (advanceTok ps)) fun r =>
          parse_term_loop fuel r.1 (emit .IMUL r.2)
      else if (currentTok ps).type = TOK_DIV then
        pbind (parse_factor fuel (advanceTok ps)) fun r =>
          parse_term_loop fuel r.1 (emit .IDIV r.2)
      else if (currentTok ps).type = TOK_AND then
        pbind (parse_factor fuel (advanceTok ps)) fun r =>
          parse_term_loop fuel r.1 (emit .IAND r.2)
      else
        pbind (parse_factor fuel (advanceTok ps)) fun r =>
          parse_term_loop fuel r.1 (emit .IREM r.2)
    else
      some (.ok (vt, ps))

/-- `parse_term` from `amplc.c`. -/
def parse_term : Nat → ParseState → Option (POut (ValType × ParseState))
  | 0, _ => none
  | fuel + 1, ps =>
    pbind (parse_factor fuel ps) fun r => parse_term_loop fuel r.1 r.2

/-- The `while (IS_ADDOP(token.type))` loop of `parse_simple`. -/
def parse_simple_loop : Nat → ValType → ParseState → Option (POut (ValType × ParseState))
  | 0, _, _ => none
  | fuel + 1, vt, ps =>
    if IS_ADDOP (currentTok ps).type then
      if (currentTok ps).type = TOK_MINUS then
        pbind (parse_term fuel (advanceTok ps)) fun r =>
          parse_simple_loop fuel r.1 (emit .ISUB r.2)
      else if (currentTok ps).type = TOK_PLUS then
        pbind (parse_term fuel (advanceTok ps)) fun r =>
          parse_simple_loop fuel r.1 (emit .IADD r.2)
      else
        pbind (parse_term fuel (advanceTok ps)) fun r =>
          parse_simple_loop fuel r.1 (emit .IOR r.2)
    else
      some (.ok (vt, ps))

/-- `parse_simple` from `amplc.c`: an optional leading unary minus, then
terms joined by additive operators. -/
def parse_simple : Nat → ParseState → Option (POut (ValType × ParseState))
  | 0, _ => none
  | fuel + 1, ps =>
    if (currentTok ps).type = TOK_MINUS then
      pbind (parse_term fuel (advanceTok ps)) fun r =>
        parse_simple_loop fuel r.1 (emit .INEG r.2)
    else
      pbind (parse_term fuel ps) fun r =>
        parse_simple_loop fuel r.1 r.2

/-- `parse_expr` from `amplc.c`: a simple expression, optionally a
relational operator and a second simple expression (then the type is
boolean). -/
def parse_expr : Nat → ParseState → Option (POut (ValType × ParseState))
  | 0, _ => none
  | fuel + 1, ps =>
    pbind (parse_simple fuel ps) fun r =>
      if IS_RELOP (currentTok r.2).type then
        if (currentTok r.2).type = TOK_EQ then
          pbind (parse_simple fuel (advanceTok r.2)) fun r2 =>
            some (.ok (TYPE_BOOLEAN, emit (.CMP JVM_IF_ICMPEQ) r2.2))
        else if (currentTok r.2).type = TOK_GE then
          pbind (parse_simple fuel (advanceTok r.2)) fun r2 =>
            some (.ok (TYPE_BOOLEAN, emit (.CMP JVM_IF_ICMPGE) r2.2))
        else if (currentTok r.2).type = TOK_GT then
          pbind (parse_simple fuel (advanceTok r.2)) fun r2 =>
            some (.ok (TYPE_BOOLEAN, emit (.CMP JVM_IF_ICMPGT) r2.2))
        else if (currentTok r.2).type = TOK_LE then
          pbind (parse_simple fuel (advanceTok r.2)) fun r2 =>
            some (.ok (TYPE_BOOLEAN, emit (.CMP JVM_IF_ICMPLE) r2.2))
        else if (currentTok r.2).type = TOK_LT then
          pbind (parse_simple fuel (advanceTok r.2)) fun r2 =>
            some (.ok (TYPE_BOOLEAN, emit (.CMP JVM_IF_ICMPLT) r2.2))
        else
          pbind (parse_simple fuel (advanceTok r.2)) fun r2 =>
            some (.ok (TYPE_BOOLEAN, emit (.CMP JVM_IF_ICMPNE) r2.2))
      else
        some (.ok (r.1, r.2))

/-- `parse_index` from `amplc.c`: a simple expression in square brackets. -/
def parse_index : Nat → ParseState → Option (POut ParseState)
  | 0, _ => none
  | fuel + 1, ps =>
    pbind (some (expect TOK_LBRACK ps)) fun ps1 =>
      pbind (parse_simple fuel ps1) fun r =>
        pbind (some (expect TOK_RBRACK r.2)) fun ps3 =>
          some (.ok ps3)

/-- The `while (token.type == TOK_COMMA)` loop of `parse_arglist`. -/
def parse_arglist_loop : Nat → ParseState → Option (POut ParseState)
  | 0, _ => none
  | fuel + 1, ps =>
    if (currentTok ps).type = TOK_COMMA then
      pbind (parse_expr fuel (advanceTok ps)) fun r =>
        parse_arglist_loop fuel r.2
    else
      some (.ok ps)

/-- `parse_arglist` from `amplc.c`: a parenthesized, non-empty,
comma-separated expression sequence. -/
def parse_arglist : Nat → ParseState → Option (POut ParseState)
  | 0, _ => none
  | fuel + 1, ps =>
    pbind (some (expect TOK_LPAREN ps)) fun ps1 =>
      pbind (parse_expr fuel ps1) fun r =>
        pbind (parse_arglist_loop fuel r.2) fun ps3 =>
          pbind (some (expect TOK_RPAREN ps3)) fun ps4 =>
            some (.ok ps4)

/-- `parse_assign` from `amplc.c`.  The Boolean result of `find_name` is
ignored and `type = propt->type` dereferences the properties pointer
unconditionally (a `crash` on an undeclared target); after the right-hand
side is parsed, the store instruction is chosen from the expression's
resulting type and the target's array-ness — no type compatibility check is
performed anywhere. -/
def parse_assign : Nat → ParseState → Option (POut ParseState)
  | 0, _ => none
  | fuel + 1, ps =>
    pbind (some (expect TOK_LET ps)) fun ps1 =>
      pbind (some (expect_id ps1)) fun r =>
        match find_name r.2.sym r.1 with
        | none => some .crash
        | some propt =>
          pbind
            (if (currentTok r.2).type = TOK_LBRACK then
              pbind (parse_index fuel (emit (.ALOAD propt.offset) r.2)) fun ps3 =>
                some (.ok (SET_BASE_TYPE propt.type, ps3))
            else
              some (.ok (propt.type, r.2))) fun rt =>
            pbind (some (expect TOK_EQ rt.2)) fun ps4 =>
              if STARTS_EXPR (currentTok ps4).type then
                pbind (parse_expr fuel ps4) fun re =>
                  if IS_ARRAY_TYPE re.1 then
                    some (.ok (emit (.ASTORE propt.offset) re.2))
                  else if IS_ARRAY_TYPE propt.type then
                    some (.ok (emit .IASTORE re.2))
                  else
                    some (.ok (emit (.ISTORE propt.offset) re.2))
              else if (currentTok ps4).type = TOK_ARRAY then
                pbind (parse_simple fuel (advanceTok ps4)) fun rs =>
                  if IS_INTEGER_TYPE rs.1 then
                    some (.ok (emit (.ASTORE propt.offset)
                      (emit (.NEWARRAY T_INT) rs.2)))
                  else
                    some (.ok (emit (.ASTORE propt.offset)
                      (emit (.NEWARRAY T_BOOLEAN) rs.2)))
              else
                some (.err .ERR_EXPECTED_EXPRESSION_OR_ARRAY_ALLOCATION)

end

end Ampl

namespace Ampl

/-- Observable outcome of `parse_assign`: the outcome tag (0 = returned,
1 = fatal report, 2 = crash) and the emitted instruction sequence. -/
def assignOutcome (r : Option (POut ParseState)) : Option (Nat × List Instr) :=
  r.map fun p =>
    match p with
    | .ok st => (0, st.code)
    | .err _ => (1, [])
    | .crash => (2, [])

/-- The token stream of `let b = 1 + 2` (as produced by the scanner). -/
def witC2toks : List Token :=
  [{ type := TOK_LET }, { type := TOK_ID, lexeme := "b" }, { type := TOK_EQ },
   { type := TOK_NUM, value := 1 }, { type := TOK_PLUS },
   { type := TOK_NUM, value := 2 }, { type := TOK_EOF }]

/-- The translator state after `bool b;`: the symbol table holds `b` as a
boolean variable (declared exactly as `parse_vardef` does), no code emitted
yet. -/
def witC2state : ParseState :=
  { toks := witC2toks
    sym := (insert_name (init_symbol_table strHash0) "b"
      { type := TYPE_BOOLEAN, offset := 0, nparams := 0, params := [] }).2.2
    code := [] }

/-- C2 (the code against the claim): translating `bool b; let b = 1 + 2`
does NOT terminate with a type-incompatibility error — no type check is
performed at all (`chktypes` is never called by any parse routine) — and
four instructions are emitted for the statement (`LDC 1; LDC 2; IADD;
ISTORE 1`), not zero.  The claim's required behaviour (fatal "incompatible
types (expected boolean, found integer)", zero instructions) is exactly
what `chktypes` would produce, but the translation succeeds instead. -/
theorem parse_assign_bool_int_no_type_error :
    assignOutcome (parse_assign 20 witC2state)
      = some (0, [Instr.LDC 1, Instr.LDC 2, Instr.IADD, Instr.ISTORE 1])
    ∧ chktypes TYPE_INTEGER TYPE_BOOLEAN
      = POut.err (.TYPE_INCOMPAT TYPE_BOOLEAN TYPE_INTEGER) := by
  constructor
  · rfl
  · rfl

/-- The token stream of `let x = 1` (as produced by the scanner). -/
def witC6toks : List Token :=
  [{ type := TOK_LET }, { type := TOK_ID, lexeme := "x" }, { type := TOK_EQ },
   { type := TOK_NUM, value := 1 }, { type := TOK_EOF }]

/-- The translator state at `let x = 1` with nothing declared. -/
def witC6state : ParseState :=
  { toks := witC6toks
    sym := init_symbol_table strHash0
    code := [] }

/-- The translator state at the factor `x` with nothing declared. -/
def witC6factorState : ParseState :=
  { toks := witC6toks.tail
    sym := init_symbol_table strHash0
    code := [] }

/-- C6 (the code against the claim): with `x` undeclared, `parse_assign` on
`let x = 1` and `parse_factor` on the factor `x` both ignore `find_name`'s
Boolean result and dereference the NULL properties pointer — undefined
behaviour (`crash`), not the claimed position-tagged undeclared-identifier
report with a clean non-zero exit. -/
theorem parse_undeclared_identifier_crashes :
    parse_assign 20 witC6state = some POut.crash
    ∧ parse_factor 20 witC6factorState = some POut.crash := by
  constructor
  · rfl
  · rfl

end Ampl
